import Mathlib

/-!
Verification of the heat-pump break-even calculator's calculation engine.

The engine lives in the repository's main component file: helpers
`toNumber`, `parsePairs`, `interpCOP`, `normalizeBins`, and the `calc`
block that computes baseline / all-electric / hybrid annual costs, derived
metrics, the crossover-temperature scan, and the per-bin dispatch matrix.

Numbers are modelled by exact rationals (`ℚ`).  JavaScript numeric strings
are parsed by a model of `Number(string)`; `none` stands for a non-finite
parse (`NaN` or `±Infinity`), which is all the engine ever distinguishes
(`Number.isFinite`).  A second layer (`JNum`, further below) additionally
tracks the IEEE special values `±Infinity`/`NaN` produced by division by
zero, which the rational layer cannot express.
-/

set_option maxRecDepth 200000

/- The Batteries rational-number operations are marked irreducible, which
blocks `decide`-style evaluation of concrete engine runs; restore the
normal reducibility (the kernel is unaffected either way). -/
set_option allowUnsafeReducibility true in
attribute [semireducible] Rat.add Rat.mul Rat.inv Rat.sub Rat.ofScientific

/-- The JS whitespace class relevant to `trim` and numeric parsing
(ASCII fragment). -/
def isWS (c : Char) : Bool :=
  c = ' ' ∨ c = '\t' ∨ c = '\n' ∨ c = '\r' ∨ c = '\x0b' ∨ c = '\x0c'

/-- JS `String.prototype.split` on a character class: chunks between
separator characters, keeping empty chunks. -/
def splitOn (p : Char → Bool) : List Char → List (List Char)
  | [] => [[]]
  | c :: cs =>
    if p c then [] :: splitOn p cs
    else
      match splitOn p cs with
      | [] => [[c]]
      | r :: rs => (c :: r) :: rs

/-- JS `String.prototype.trim` (ASCII whitespace fragment). -/
def trimChars (cs : List Char) : List Char :=
  ((cs.dropWhile isWS).reverse.dropWhile isWS).reverse

/-- A `{x, y}` sample: COP table rows (x = °F, y = COP) and weather-bin
rows (x = °F, y = weight). -/
structure Coord where
  x : ℚ
  y : ℚ
deriving DecidableEq, Repr

/-- Numeric value of an ASCII decimal digit. -/
def digitVal (c : Char) : ℕ := c.toNat - 48

/-- ASCII decimal digit test. -/
def isDecDigit (c : Char) : Bool := 48 ≤ c.toNat && c.toNat ≤ 57

/-- Hexadecimal digit value, if any. -/
def hexDigitVal (c : Char) : Option ℕ :=
  if 48 ≤ c.toNat ∧ c.toNat ≤ 57 then some (c.toNat - 48)
  else if 97 ≤ c.toNat ∧ c.toNat ≤ 102 then some (c.toNat - 87)
  else if 65 ≤ c.toNat ∧ c.toNat ≤ 70 then some (c.toNat - 55)
  else none

/-- Octal digit value, if any. -/
def octDigitVal (c : Char) : Option ℕ :=
  if 48 ≤ c.toNat ∧ c.toNat ≤ 55 then some (c.toNat - 48) else none

/-- Binary digit value, if any. -/
def binDigitVal (c : Char) : Option ℕ :=
  if c = '0' then some 0 else if c = '1' then some 1 else none

/-- Value of a digit string (most significant first). -/
def natOfDigits (cs : List Char) : ℕ := cs.foldl (fun n c => n * 10 + digitVal c) 0

/-- Split a character list at the first character satisfying `p`;
`none` in the second component means `p` never matched. -/
def splitAtFirst (p : Char → Bool) : List Char → List Char × Option (List Char)
  | [] => ([], none)
  | c :: cs =>
    if p c then ([], some cs)
    else
      let r := splitAtFirst p cs
      (c :: r.1, r.2)

/-- Radix-prefixed integer literal body (`0x…`, `0o…`, `0b…`). -/
def parseRadix (dv : Char → Option ℕ) (radix : ℕ) (cs : List Char) : Option ℚ :=
  match cs with
  | [] => none
  | _ =>
    (cs.foldl (fun acc c => acc.bind fun n => (dv c).map fun d => n * radix + d)
        (some 0)).map (fun n => (n : ℚ))

/-- Exponent part of a decimal literal (after `e`/`E`). -/
def parseExp (cs : List Char) : Option ℤ :=
  match cs with
  | [] => none
  | '+' :: ds => if ds ≠ [] ∧ ds.all isDecDigit then some (natOfDigits ds : ℤ) else none
  | '-' :: ds => if ds ≠ [] ∧ ds.all isDecDigit then some (-(natOfDigits ds : ℤ)) else none
  | ds => if ds.all isDecDigit then some (natOfDigits ds : ℤ) else none

/-- Unsigned decimal literal: `digits [. digits] [e sign digits]`, with
either the integral or the fractional digit group possibly empty but not
both. -/
def parseUnsignedDec (cs : List Char) : Option ℚ :=
  let se := splitAtFirst (fun c => c = 'e' ∨ c = 'E') cs
  let sm := splitAtFirst (fun c => c = '.') se.1
  let ip := sm.1
  let fp := (sm.2).getD []
  if ip ++ fp = [] then none
  else if ¬ (ip.all isDecDigit ∧ fp.all isDecDigit) then none
  else
    let mant : ℚ := (natOfDigits ip : ℚ) + (natOfDigits fp : ℚ) / (10 : ℚ) ^ fp.length
    match se.2 with
    | none => some mant
    | some ecs => (parseExp ecs).map (fun e => mant * (10 : ℚ) ^ e)

/-- Model of the JavaScript `Number(string)` conversion (ASCII grammar):
trimmed empty string is `0`; `none` stands for any non-finite result
(`NaN` or `±Infinity`), which is all the engine distinguishes via
`Number.isFinite`. -/
def jsStrToNum (s : List Char) : Option ℚ :=
  let cs := trimChars s
  match cs with
  | [] => some 0
  | _ =>
    if cs = "Infinity".data ∨ cs = "+Infinity".data ∨ cs = "-Infinity".data then none
    else
      match cs with
      | '0' :: 'x' :: rest => parseRadix hexDigitVal 16 rest
      | '0' :: 'X' :: rest => parseRadix hexDigitVal 16 rest
      | '0' :: 'o' :: rest => parseRadix octDigitVal 8 rest
      | '0' :: 'O' :: rest => parseRadix octDigitVal 8 rest
      | '0' :: 'b' :: rest => parseRadix binDigitVal 2 rest
      | '0' :: 'B' :: rest => parseRadix binDigitVal 2 rest
      | '+' :: rest => parseUnsignedDec rest
      | '-' :: rest => (parseUnsignedDec rest).map Neg.neg
      | _ => parseUnsignedDec cs

/-- Insertion step of the (stable) ascending-by-`x` sort performed by the
source's `.sort((a, b) => a.x - b.x)`: a new element is placed after every
already-placed element whose `x` is `≤` its own. -/
def insertByX (c : Coord) : List Coord → List Coord
  | [] => [c]
  | d :: ds => if d.x ≤ c.x then d :: insertByX c ds else c :: d :: ds

/-- Stable sort ascending by `x` (model of the JS stable `Array.sort`). -/
def sortByX (l : List Coord) : List Coord := l.foldl (fun acc c => insertByX c acc) []

/-- The stages of `parsePairs` before the final sort: split the text on
newlines or commas, trim, drop empty entries, split each entry on `:` and
take the first two fields (a missing second field reads as `undefined`,
hence `NaN`), keep entries whose first two fields are both finite
numbers. -/
def preParsePairs (text : String) : List Coord :=
  (((splitOn (fun c => c = '\n' ∨ c = ',') text.data).map trimChars).filter (· ≠ []))
    |>.filterMap (fun pair =>
      let parts := (splitOn (fun c => c = ':') pair).map trimChars
      match jsStrToNum (parts.headD []), parts[1]?.bind jsStrToNum with
      | some a, some b => some ⟨a, b⟩
      | _, _ => none)

/-- `parsePairs`: the survivors of the split/trim/parse/filter pipeline,
sorted ascending by `x`. -/
def parsePairs (text : String) : List Coord :=
  sortByX (preParsePairs text)

/-- The scan loop of `interpCOP`: return the interpolated value at the
first adjacent pair `(a, b)` with `a.x ≤ t ≤ b.x`; the JS `(b.x - a.x || 1)`
guard replaces a zero-width denominator by `1`. -/
def interpScan (t : ℚ) : List Coord → Option ℚ
  | a :: b :: rest =>
    if a.x ≤ t ∧ t ≤ b.x then
      some (a.y + (t - a.x) / (if b.x - a.x = 0 then 1 else b.x - a.x) * (b.y - a.y))
    else interpScan t (b :: rest)
  | _ => none

/-- `interpCOP`: default `2.2` on an empty table, flat extrapolation at the
ends, otherwise the scan over adjacent pairs with the final fallthrough
`return table[table.length - 1].y`. -/
def interpCOP (table : List Coord) (t : ℚ) : ℚ :=
  match table with
  | [] => 11 / 5
  | c :: cs =>
    let lastC := cs.getLastD c
    if t ≤ c.x then c.y
    else if lastC.x ≤ t then lastC.y
    else (interpScan t (c :: cs)).getD lastC.y

/-- The `bins.reduce((s, r) => s + r.y, 0)` total. -/
def binsTotal (bins : List Coord) : ℚ := bins.foldl (fun s r => s + r.y) 0

/-- `normalizeBins`: rescale the `y` weights by `100 / total`; the JS
`|| 1` turns a zero total into divisor `1`. -/
def normalizeBins (bins : List Coord) : List Coord :=
  let total := if binsTotal bins = 0 then 1 else binsTotal bins
  bins.map (fun r => ⟨r.x, r.y * 100 / total⟩)

/-- `toNumber(value, fallback)`: the numeric value when finite, else the
fallback (`none` models a non-finite `Number(value)`). -/
def toNumber (value : Option ℚ) (fallback : ℚ) : ℚ :=
  match value with
  | some n => n
  | none => fallback

/-- The twelve numeric inputs after `toNumber` resolution. -/
structure Vals where
  kwhBase : ℚ
  supplyC : ℚ
  txC : ℚ
  dfcNon : ℚ
  dfcEH : ℚ
  gasSupply : ℚ
  gasDist : ℚ
  afue : ℚ
  heatMMBtu : ℚ
  seasonalCOP : ℚ
  gross : ℚ
  credits : ℚ
deriving DecidableEq, Repr

/-- The raw numeric inputs as parsed from the form fields; `none` models a
non-finite `Number(...)` result. -/
structure RawInputs where
  kwhBase : Option ℚ
  supplyC : Option ℚ
  txC : Option ℚ
  dfcNon : Option ℚ
  dfcEH : Option ℚ
  gasSupply : Option ℚ
  gasDist : Option ℚ
  afue : Option ℚ
  heatMMBtu : Option ℚ
  seasonalCOP : Option ℚ
  gross : Option ℚ
  credits : Option ℚ

/-- The `DEFAULTS` record (Chicago profile). -/
def DEFAULTS : Vals :=
  ⟨97300, 3331/1000, 1767/1000, 6062/1000, 2924/1000, 52/100, 2134/10000,
   95/100, 375/10, 11/5, 10354, 2600⟩

/-- The twelve `toNumber(inputs.…, DEFAULTS.…)` resolutions at the top of
`calc`. -/
def resolve (i : RawInputs) : Vals :=
  ⟨toNumber i.kwhBase DEFAULTS.kwhBase, toNumber i.supplyC DEFAULTS.supplyC,
   toNumber i.txC DEFAULTS.txC, toNumber i.dfcNon DEFAULTS.dfcNon,
   toNumber i.dfcEH DEFAULTS.dfcEH, toNumber i.gasSupply DEFAULTS.gasSupply,
   toNumber i.gasDist DEFAULTS.gasDist, toNumber i.afue DEFAULTS.afue,
   toNumber i.heatMMBtu DEFAULTS.heatMMBtu, toNumber i.seasonalCOP DEFAULTS.seasonalCOP,
   toNumber i.gross DEFAULTS.gross, toNumber i.credits DEFAULTS.credits⟩

/-- `gasAllIn = gasSupply + gasDist` ($/therm). -/
def gasAllIn (v : Vals) : ℚ := v.gasSupply + v.gasDist

/-- `allInNon = (supplyC + txC + dfcNon) / 100` ($/kWh). -/
def allInNon (v : Vals) : ℚ := (v.supplyC + v.txC + v.dfcNon) / 100

/-- `allInEH = (supplyC + txC + dfcEH) / 100` ($/kWh). -/
def allInEH (v : Vals) : ℚ := (v.supplyC + v.txC + v.dfcEH) / 100

/-- `baselineElec = kWhBase * allInNon`. -/
def baselineElecQ (v : Vals) : ℚ := v.kwhBase * allInNon v

/-- `baselineGas = (heatMMBtu / 0.1 / afue) * gasAllIn`. -/
def baselineGasQ (v : Vals) : ℚ := v.heatMMBtu / (1/10) / v.afue * gasAllIn v

/-- `baseline = baselineElec + baselineGas`. -/
def baselineQ (v : Vals) : ℚ := baselineElecQ v + baselineGasQ v

/-- `costGasPerMMBtu = (1 / 0.1 / afue) * gasAllIn` ($ per MMBtu delivered). -/
def costGasPerMMBtuQ (v : Vals) : ℚ := 1 / (1/10) / v.afue * gasAllIn v

/-- The fixed thermal-to-electric constant `293.071` kWh/MMBtu. -/
def c293 : ℚ := 293071 / 1000

/-- JS `Math.round`: `⌊x + 1/2⌋`. -/
def jsRound (q : ℚ) : ℤ := ⌊q + 1/2⌋

/-- JS `Number(x.toFixed(d))` idealized over `ℚ`: round half away from
zero at `d` decimal places (ECMA computes on the magnitude, then restores
the sign). -/
def toFixedQ (d : ℕ) (q : ℚ) : ℚ :=
  if q < 0 then -((⌊(-q) * 10 ^ d + 1/2⌋ : ℚ) / 10 ^ d)
  else (⌊q * 10 ^ d + 1/2⌋ : ℚ) / 10 ^ d

/-- One row of the temperature-by-bin dispatch matrix. -/
structure MatrixRow where
  t : ℚ
  pct : ℚ
  cop : ℚ
  hpCost : ℚ
  gasCost : ℚ
  cheaper : String
deriving DecidableEq, Repr

/-- Accumulator of the per-bin loop (`hpKWh`, `costHPsum`, `costGASsum`,
`hybridGasMMBtu`, matrix rows pushed so far). -/
structure BinAcc where
  hpKWh : ℚ
  costHPsum : ℚ
  costGASsum : ℚ
  hybridGasMMBtu : ℚ
  matrix : List MatrixRow
deriving DecidableEq, Repr

/-- One iteration of the `for (const b of bins)` loop: accumulate the
all-electric kWh, dispatch the bin's heat share to the cheaper fuel
(ties to the heat pump via `<=`), and push the matrix row. -/
def binStep (v : Vals) (table : List Coord) (acc : BinAcc) (b : Coord) : BinAcc :=
  let t := b.x
  let share := b.y / 100
  let mmbtu := v.heatMMBtu * share
  let cop := interpCOP table t
  let kwhPerMMBtu := c293 / cop
  let costHPperMMBtu := kwhPerMMBtu * allInEH v
  let costGas := costGasPerMMBtuQ v
  if costHPperMMBtu ≤ costGas then
    { hpKWh := acc.hpKWh + mmbtu * kwhPerMMBtu
      costHPsum := acc.costHPsum + mmbtu * costHPperMMBtu
      costGASsum := acc.costGASsum
      hybridGasMMBtu := acc.hybridGasMMBtu
      matrix := acc.matrix ++
        [⟨t, toFixedQ 2 b.y, toFixedQ 2 cop, toFixedQ 2 costHPperMMBtu, toFixedQ 2 costGas, "HP"⟩] }
  else
    { hpKWh := acc.hpKWh + mmbtu * kwhPerMMBtu
      costHPsum := acc.costHPsum
      costGASsum := acc.costGASsum + mmbtu * costGas
      hybridGasMMBtu := acc.hybridGasMMBtu + mmbtu
      matrix := acc.matrix ++
        [⟨t, toFixedQ 2 b.y, toFixedQ 2 cop, toFixedQ 2 costHPperMMBtu, toFixedQ 2 costGas, "Gas"⟩] }

/-- The whole per-bin loop over the normalized bins. -/
def binAccQ (v : Vals) (copText binsText : String) : BinAcc :=
  (normalizeBins (parsePairs binsText)).foldl (binStep v (parsePairs copText)) ⟨0, 0, 0, 0, []⟩

/-- Heating kWh: the per-bin accumulation in table mode, the seasonal-COP
fallback `(heatMMBtu * 293.071) / seasonalCOP` otherwise. -/
def hpKWhQ (v : Vals) (useTableMode : Bool) (copText binsText : String) : ℚ :=
  if useTableMode then (binAccQ v copText binsText).hpKWh
  else v.heatMMBtu * c293 / v.seasonalCOP

/-- `hybrid = kWhBase * allInEH + costHPsum + costGASsum` in table mode,
`null` otherwise. -/
def hybridQ (v : Vals) (useTableMode : Bool) (copText binsText : String) : Option ℚ :=
  if useTableMode then
    some (v.kwhBase * allInEH v + (binAccQ v copText binsText).costHPsum +
      (binAccQ v copText binsText).costGASsum)
  else none

/-- `allElectric = (kWhBase + hpKWh) * allInEH`. -/
def allElectricQ (v : Vals) (useTableMode : Bool) (copText binsText : String) : ℚ :=
  (v.kwhBase + hpKWhQ v useTableMode copText binsText) * allInEH v

/-- `savingsAll = baseline - allElectric`. -/
def savingsAllQ (v : Vals) (useTableMode : Bool) (copText binsText : String) : ℚ :=
  baselineQ v - allElectricQ v useTableMode copText binsText

/-- `savingsHybrid = hybrid != null ? baseline - hybrid : null`. -/
def savingsHybridQ (v : Vals) (useTableMode : Bool) (copText binsText : String) : Option ℚ :=
  (hybridQ v useTableMode copText binsText).map (fun h => baselineQ v - h)

/-- `net = gross - credits`. -/
def netQ (v : Vals) : ℚ := v.gross - v.credits

/-- `paybackAll = savingsAll > 0 ? net / savingsAll : null`. -/
def paybackAllQ (v : Vals) (useTableMode : Bool) (copText binsText : String) : Option ℚ :=
  if 0 < savingsAllQ v useTableMode copText binsText then
    some (netQ v / savingsAllQ v useTableMode copText binsText)
  else none

/-- `paybackHybrid = savingsHybrid && savingsHybrid > 0 ? net / savingsHybrid : null`
(a `null` or zero `savingsHybrid` is falsy). -/
def paybackHybridQ (v : Vals) (useTableMode : Bool) (copText binsText : String) : Option ℚ :=
  match savingsHybridQ v useTableMode copText binsText with
  | none => none
  | some s => if s ≠ 0 ∧ 0 < s then some (netQ v / s) else none

/-- The record-level payback postprocessing
`payback ? Number(payback.toFixed(1)) : null`: a null or zero (falsy)
payback collapses to null, otherwise round to one decimal. -/
def paybackFieldQ (p : Option ℚ) : Option ℚ :=
  match p with
  | none => none
  | some q => if q ≠ 0 then some (toFixedQ 1 q) else none

/-- One point of the crossover cost curve pushed by the scan loop. -/
structure CrossRow where
  t : ℚ
  hp : ℚ
  gas : ℚ
deriving DecidableEq, Repr

/-- The local closure `hpCost = (t) => (293.071 / interpCOP(table, t)) * allInEH`. -/
def hpUnitCost (table : List Coord) (rate t : ℚ) : ℚ := c293 / interpCOP table t * rate

/-- The `for (let t = tMin; t <= tMax; t++)` scan: push the series point,
and on the first sign change (or zero touch) of `diff` against `prevDiff`,
linearly interpolate the crossing and stop (`break`).  The first argument
is the remaining iteration count, then the current `t`, `prevT`,
`prevDiff`. -/
def crossScan (table : List Coord) (rate costGas : ℚ) :
    ℕ → ℚ → ℚ → ℚ → List CrossRow × Option ℚ
  | 0, _, _, _ => ([], none)
  | n + 1, t, prevT, prevDiff =>
    let cHP := hpUnitCost table rate t
    let diff := cHP - costGas
    if (prevDiff ≤ 0 ∧ 0 ≤ diff) ∨ (0 ≤ prevDiff ∧ diff ≤ 0) then
      let frac := if |diff - prevDiff| < 1/1000000000 then 0 else (0 - prevDiff) / (diff - prevDiff)
      ([⟨t, cHP, costGas⟩], some (toFixedQ 1 (prevT + frac * (t - prevT))))
    else
      let rest := crossScan table rate costGas n (t + 1) t diff
      (⟨t, cHP, costGas⟩ :: rest.1, rest.2)

/-- Number of iterations of `for (let t = tMin; t <= tMax; t++)`. -/
def numSteps (tMin tMax : ℚ) : ℕ := if tMax < tMin then 0 else (⌊tMax - tMin⌋).toNat + 1

/-- Output of the crossover block: `crossoverTemp`, `crossoverNote`,
`crossoverSeries`. -/
structure CrossOut where
  temp : Option ℚ
  note : String
  series : List CrossRow
deriving DecidableEq, Repr

/-- The crossover block: with a table of more than one entry, scan the
integer-step grid from `min(-20, table[0].x)` to `max(65, lastTableTemp)`;
if no crossing is found classify the sign of `diff` at the ends; with
table mode off, emit the "provide a COP table" note; otherwise (table too
small) leave the note empty. -/
def crossoverQ (v : Vals) (useTableMode : Bool) (copText : String) : CrossOut :=
  let costGas := costGasPerMMBtuQ v
  if useTableMode then
    let table := parsePairs copText
    if table.length > 1 then
      let tMin := min (-20) (table.headD ⟨0, 0⟩).x
      let tMax := max 65 (table.getLastD ⟨0, 0⟩).x
      let scan := crossScan table (allInEH v) costGas (numSteps tMin tMax) tMin tMin
        (hpUnitCost table (allInEH v) tMin - costGas)
      match scan.2 with
      | some ct => ⟨some ct, "", scan.1⟩
      | none =>
        let diffAtMin := hpUnitCost table (allInEH v) tMin - costGas
        let diffAtMax := hpUnitCost table (allInEH v) tMax - costGas
        let note :=
          if diffAtMin < 0 ∧ diffAtMax < 0 then "HP cheaper at all temps"
          else if 0 < diffAtMin ∧ 0 < diffAtMax then "Gas cheaper at all temps"
          else "Crossover outside modeled range"
        ⟨none, note, scan.1⟩
    else ⟨none, "", []⟩
  else ⟨none, "Provide a COP table to compute a precise crossover temperature", []⟩

/-- The output record returned by `calc` (chart bars omitted: they repeat
the three rounded scenario costs verbatim). -/
structure QResult where
  baseline : ℤ
  allElectric : ℤ
  hybrid : Option ℤ
  hybridGasMMBtu : ℚ
  hybridHPkWh : ℤ
  savingsAll : ℤ
  savingsHybrid : Option ℤ
  paybackAll : Option ℚ
  paybackHybrid : Option ℚ
  dfcSavings : ℤ
  gasHeatCost : ℤ
  hpHeatCost : ℤ
  fuelSwitchSavings : ℤ
  crossoverTemp : Option ℚ
  crossoverNote : String
  crossoverSeries : List CrossRow
  matrix : List MatrixRow
deriving DecidableEq, Repr

/-- The `calc` result as a function of the resolved numeric inputs, the
table-mode flag, and the two text areas.  `hybridHPkWh` is initialized to
`0` in the source and never updated, so it is the constant `0` here.  The
record-level payback fields apply the JS truthiness test (`0` and `null`
are falsy) before `toFixed(1)`. -/
def calcV (v : Vals) (useTableMode : Bool) (copText binsText : String) : QResult :=
  let cross := crossoverQ v useTableMode copText
  { baseline := jsRound (baselineQ v)
    allElectric := jsRound (allElectricQ v useTableMode copText binsText)
    hybrid := (hybridQ v useTableMode copText binsText).map jsRound
    hybridGasMMBtu :=
      toFixedQ 1 (if useTableMode then (binAccQ v copText binsText).hybridGasMMBtu else 0)
    hybridHPkWh := 0
    savingsAll := jsRound (savingsAllQ v useTableMode copText binsText)
    savingsHybrid := (savingsHybridQ v useTableMode copText binsText).map jsRound
    paybackAll := paybackFieldQ (paybackAllQ v useTableMode copText binsText)
    paybackHybrid := paybackFieldQ (paybackHybridQ v useTableMode copText binsText)
    dfcSavings := jsRound (v.kwhBase * ((v.dfcNon - v.dfcEH) / 100))
    gasHeatCost := jsRound (baselineGasQ v)
    hpHeatCost := jsRound (hpKWhQ v useTableMode copText binsText * allInEH v)
    fuelSwitchSavings :=
      jsRound (baselineGasQ v - hpKWhQ v useTableMode copText binsText * allInEH v)
    crossoverTemp := cross.temp
    crossoverNote := cross.note
    crossoverSeries := cross.series
    matrix := if useTableMode then (binAccQ v copText binsText).matrix else [] }

/-- The `calc` result from the raw inputs (the `toNumber` resolutions
composed with `calcV`). -/
def qcalc (raw : RawInputs) (useTableMode : Bool) (copText binsText : String) : QResult :=
  calcV (resolve raw) useTableMode copText binsText

/-- Decidable ascending-by-`x` check used to state sortedness. -/
def sortedByX : List Coord → Bool
  | [] => true
  | [_] => true
  | a :: b :: l => a.x ≤ b.x && sortedByX (b :: l)

/-- A JavaScript number in the idealized reals-plus-specials sense: an
exact rational, `+Infinity`, `-Infinity`, or `NaN` (rounding of binary64
is not modelled; division by zero and special-value propagation are). -/
inductive JNum where
  | fin (q : ℚ)
  | inf
  | ninf
  | nan
deriving DecidableEq, Repr

namespace JNum

/-- Finiteness test, the model of `Number.isFinite`. -/
def isFin : JNum → Bool
  | fin _ => true
  | _ => false

/-- IEEE negation. -/
def jneg : JNum → JNum
  | fin q => fin (-q)
  | inf => ninf
  | ninf => inf
  | nan => nan

/-- IEEE addition on the idealized values. -/
def jadd : JNum → JNum → JNum
  | fin a, fin b => fin (a + b)
  | fin _, inf => inf
  | fin _, ninf => ninf
  | inf, fin _ => inf
  | ninf, fin _ => ninf
  | inf, inf => inf
  | ninf, ninf => ninf
  | _, _ => nan

/-- IEEE subtraction. -/
def jsub (a b : JNum) : JNum := jadd a (jneg b)

/-- IEEE multiplication (`0 * ±Infinity = NaN`). -/
def jmul : JNum → JNum → JNum
  | fin a, fin b => fin (a * b)
  | fin a, inf => if 0 < a then inf else if a < 0 then ninf else nan
  | fin a, ninf => if 0 < a then ninf else if a < 0 then inf else nan
  | inf, fin b => if 0 < b then inf else if b < 0 then ninf else nan
  | ninf, fin b => if 0 < b then ninf else if b < 0 then inf else nan
  | inf, inf => inf
  | inf, ninf => ninf
  | ninf, inf => ninf
  | ninf, ninf => inf
  | _, _ => nan

/-- IEEE division (zero is unsigned here, so `a / 0 = +Infinity` for
`a > 0`, `-Infinity` for `a < 0`, `NaN` for `0 / 0`). -/
def jdiv : JNum → JNum → JNum
  | fin a, fin b =>
    if b = 0 then (if 0 < a then inf else if a < 0 then ninf else nan)
    else fin (a / b)
  | fin _, inf => fin 0
  | fin _, ninf => fin 0
  | inf, fin b => if 0 ≤ b then inf else ninf
  | ninf, fin b => if 0 ≤ b then ninf else inf
  | _, _ => nan

/-- IEEE `<=` (false on any `NaN`). -/
def jle : JNum → JNum → Bool
  | nan, _ => false
  | _, nan => false
  | ninf, _ => true
  | _, inf => true
  | fin a, fin b => a ≤ b
  | _, _ => false

/-- IEEE `<` (false on any `NaN`). -/
def jlt : JNum → JNum → Bool
  | nan, _ => false
  | _, nan => false
  | fin a, fin b => a < b
  | ninf, ninf => false
  | inf, inf => false
  | ninf, _ => true
  | _, inf => true
  | _, _ => false

/-- `Math.abs`. -/
def jabs : JNum → JNum
  | fin q => fin |q|
  | nan => nan
  | _ => inf

/-- JS truthiness of a number: `0` and `NaN` are falsy. -/
def jtruthy : JNum → Bool
  | fin q => q ≠ 0
  | nan => false
  | _ => true

/-- `Math.round` (specials pass through). -/
def jround : JNum → JNum
  | fin q => fin (jsRound q : ℚ)
  | x => x

/-- `Number(x.toFixed(d))` (specials pass through). -/
def jfix (d : ℕ) : JNum → JNum
  | fin q => fin (toFixedQ d q)
  | x => x

end JNum

/-- `baselineGas` with special values tracked (`heatMMBtu / 0.1 / afue * gasAllIn`). -/
def baselineGasJ (v : Vals) : JNum :=
  JNum.jmul (JNum.jdiv (JNum.jdiv (.fin v.heatMMBtu) (.fin (1/10))) (.fin v.afue))
    (.fin (gasAllIn v))

/-- `baseline` with special values tracked (the electric part involves no
division by an input, so it stays rational). -/
def baselineJ (v : Vals) : JNum := JNum.jadd (.fin (baselineElecQ v)) (baselineGasJ v)

/-- `costGasPerMMBtu` with special values tracked. -/
def costGasPerMMBtuJ (v : Vals) : JNum :=
  JNum.jmul (JNum.jdiv (JNum.jdiv (.fin 1) (.fin (1/10))) (.fin v.afue)) (.fin (gasAllIn v))

/-- The initial `hpKWh = (heatMMBtu * 293.071) / seasonalCOP`. -/
def hpKWh0J (v : Vals) : JNum := JNum.jdiv (.fin (v.heatMMBtu * c293)) (.fin v.seasonalCOP)

/-- Matrix row with special values tracked in the two cost columns
(`t`, `pct`, `cop` come from parsed finite table data). -/
structure JMatrixRow where
  t : ℚ
  pct : ℚ
  cop : ℚ
  hpCost : JNum
  gasCost : JNum
  cheaper : String
deriving DecidableEq, Repr

/-- Per-bin loop accumulator with special values tracked. -/
structure JBinAcc where
  hpKWh : JNum
  costHPsum : JNum
  costGASsum : JNum
  hybridGasMMBtu : ℚ
  matrix : List JMatrixRow
deriving DecidableEq, Repr

/-- One iteration of the bin loop with special values tracked
(`kwhPerMMBtu = 293.071 / cop` can be infinite when `cop = 0`). -/
def binStepJ (v : Vals) (table : List Coord) (acc : JBinAcc) (b : Coord) : JBinAcc :=
  let t := b.x
  let share := b.y / 100
  let mmbtu := v.heatMMBtu * share
  let cop := interpCOP table t
  let kwhPerMMBtu := JNum.jdiv (.fin c293) (.fin cop)
  let costHPperMMBtu := JNum.jmul kwhPerMMBtu (.fin (allInEH v))
  let costGas := costGasPerMMBtuJ v
  let hp := JNum.jadd acc.hpKWh (JNum.jmul (.fin mmbtu) kwhPerMMBtu)
  if JNum.jle costHPperMMBtu costGas then
    { hpKWh := hp
      costHPsum := JNum.jadd acc.costHPsum (JNum.jmul (.fin mmbtu) costHPperMMBtu)
      costGASsum := acc.costGASsum
      hybridGasMMBtu := acc.hybridGasMMBtu
      matrix := acc.matrix ++
        [⟨t, toFixedQ 2 b.y, toFixedQ 2 cop, JNum.jfix 2 costHPperMMBtu, JNum.jfix 2 costGas, "HP"⟩] }
  else
    { hpKWh := hp
      costHPsum := acc.costHPsum
      costGASsum := JNum.jadd acc.costGASsum (JNum.jmul (.fin mmbtu) costGas)
      hybridGasMMBtu := acc.hybridGasMMBtu + mmbtu
      matrix := acc.matrix ++
        [⟨t, toFixedQ 2 b.y, toFixedQ 2 cop, JNum.jfix 2 costHPperMMBtu, JNum.jfix 2 costGas, "Gas"⟩] }

/-- The whole bin loop with special values tracked. -/
def binAccJ (v : Vals) (copText binsText : String) : JBinAcc :=
  (normalizeBins (parsePairs binsText)).foldl (binStepJ v (parsePairs copText))
    ⟨.fin 0, .fin 0, .fin 0, 0, []⟩

/-- Crossover series point with special values tracked. -/
structure JCrossRow where
  t : ℚ
  hp : JNum
  gas : JNum
deriving DecidableEq, Repr

/-- `hpCost` closure with special values tracked. -/
def hpUnitCostJ (table : List Coord) (rate t : ℚ) : JNum :=
  JNum.jmul (JNum.jdiv (.fin c293) (.fin (interpCOP table t))) (.fin rate)

/-- The crossover scan loop with special values tracked. -/
def crossScanJ (table : List Coord) (rate : ℚ) (costGas : JNum) :
    ℕ → ℚ → ℚ → JNum → List JCrossRow × Option JNum
  | 0, _, _, _ => ([], none)
  | n + 1, t, prevT, prevDiff =>
    let cHP := hpUnitCostJ table rate t
    let diff := JNum.jsub cHP costGas
    if (JNum.jle prevDiff (.fin 0) && JNum.jle (.fin 0) diff) ||
        (JNum.jle (.fin 0) prevDiff && JNum.jle diff (.fin 0)) then
      let frac :=
        if JNum.jlt (JNum.jabs (JNum.jsub diff prevDiff)) (.fin (1/1000000000)) then JNum.fin 0
        else JNum.jdiv (JNum.jsub (.fin 0) prevDiff) (JNum.jsub diff prevDiff)
      ([⟨t, cHP, costGas⟩],
        some (JNum.jfix 1 (JNum.jadd (.fin prevT) (JNum.jmul frac (.fin (t - prevT))))))
    else
      let rest := crossScanJ table rate costGas n (t + 1) t diff
      (⟨t, cHP, costGas⟩ :: rest.1, rest.2)

/-- Crossover block output with special values tracked. -/
structure JCrossOut where
  temp : Option JNum
  note : String
  series : List JCrossRow
deriving DecidableEq, Repr

/-- The crossover block with special values tracked. -/
def crossoverJ (v : Vals) (useTableMode : Bool) (copText : String) : JCrossOut :=
  let costGas := costGasPerMMBtuJ v
  if useTableMode then
    let table := parsePairs copText
    if table.length > 1 then
      let tMin := min (-20) (table.headD ⟨0, 0⟩).x
      let tMax := max 65 (table.getLastD ⟨0, 0⟩).x
      let scan := crossScanJ table (allInEH v) costGas (numSteps tMin tMax) tMin tMin
        (JNum.jsub (hpUnitCostJ table (allInEH v) tMin) costGas)
      match scan.2 with
      | some ct => ⟨some ct, "", scan.1⟩
      | none =>
        let diffAtMin := JNum.jsub (hpUnitCostJ table (allInEH v) tMin) costGas
        let diffAtMax := JNum.jsub (hpUnitCostJ table (allInEH v) tMax) costGas
        let note :=
          if JNum.jlt diffAtMin (.fin 0) && JNum.jlt diffAtMax (.fin 0) then
            "HP cheaper at all temps"
          else if JNum.jlt (.fin 0) diffAtMin && JNum.jlt (.fin 0) diffAtMax then
            "Gas cheaper at all temps"
          else "Crossover outside modeled range"
        ⟨none, note, scan.1⟩
    else ⟨none, "", []⟩
  else ⟨none, "Provide a COP table to compute a precise crossover temperature", []⟩

/-- `paybackAll = savingsAll > 0 ? net / savingsAll : null` with special
values tracked. -/
def paybackAllJv (net : ℚ) (sa : JNum) : Option JNum :=
  if JNum.jlt (.fin 0) sa then some (JNum.jdiv (.fin net) sa) else none

/-- `paybackHybrid = savingsHybrid && savingsHybrid > 0 ? net / savingsHybrid : null`
with special values tracked. -/
def paybackHybridJv (net : ℚ) (sh : Option JNum) : Option JNum :=
  match sh with
  | none => none
  | some s =>
    if JNum.jtruthy s && JNum.jlt (.fin 0) s then some (JNum.jdiv (.fin net) s) else none

/-- The record-level payback postprocessing with special values tracked
(JS truthiness: `0` and `NaN` are falsy). -/
def paybackFieldJ (p : Option JNum) : Option JNum :=
  match p with
  | none => none
  | some p => if JNum.jtruthy p then some (JNum.jfix 1 p) else none

/-- The output record with IEEE special values tracked in every numeric
field that can be reached by a division. -/
structure JResult where
  baseline : JNum
  allElectric : JNum
  hybrid : Option JNum
  hybridGasMMBtu : JNum
  hybridHPkWh : JNum
  savingsAll : JNum
  savingsHybrid : Option JNum
  paybackAll : Option JNum
  paybackHybrid : Option JNum
  dfcSavings : JNum
  gasHeatCost : JNum
  hpHeatCost : JNum
  fuelSwitchSavings : JNum
  crossoverTemp : Option JNum
  crossoverNote : String
  crossoverSeries : List JCrossRow
  matrix : List JMatrixRow
deriving DecidableEq, Repr

/-- `calc` with IEEE special values tracked. -/
def calcJ (v : Vals) (useTableMode : Bool) (copText binsText : String) : JResult :=
  let acc := binAccJ v copText binsText
  let hpKWh := if useTableMode then acc.hpKWh else hpKWh0J v
  let hybrid : Option JNum :=
    if useTableMode then
      some (JNum.jadd (JNum.jadd (.fin (v.kwhBase * allInEH v)) acc.costHPsum) acc.costGASsum)
    else none
  let allElectric := JNum.jmul (JNum.jadd (.fin v.kwhBase) hpKWh) (.fin (allInEH v))
  let savingsAll := JNum.jsub (baselineJ v) allElectric
  let savingsHybrid := hybrid.map (fun h => JNum.jsub (baselineJ v) h)
  let net := netQ v
  let paybackAll : Option JNum := paybackAllJv net savingsAll
  let paybackHybrid : Option JNum := paybackHybridJv net savingsHybrid
  let cross := crossoverJ v useTableMode copText
  { baseline := JNum.jround (baselineJ v)
    allElectric := JNum.jround allElectric
    hybrid := hybrid.map JNum.jround
    hybridGasMMBtu := .fin (toFixedQ 1 (if useTableMode then acc.hybridGasMMBtu else 0))
    hybridHPkWh := .fin 0
    savingsAll := JNum.jround savingsAll
    savingsHybrid := savingsHybrid.map JNum.jround
    paybackAll := paybackFieldJ paybackAll
    paybackHybrid := paybackFieldJ paybackHybrid
    dfcSavings := .fin (jsRound (v.kwhBase * ((v.dfcNon - v.dfcEH) / 100)) : ℚ)
    gasHeatCost := JNum.jround (baselineGasJ v)
    hpHeatCost := JNum.jround (JNum.jmul hpKWh (.fin (allInEH v)))
    fuelSwitchSavings := JNum.jround (JNum.jsub (baselineGasJ v) (JNum.jmul hpKWh (.fin (allInEH v))))
    crossoverTemp := cross.temp
    crossoverNote := cross.note
    crossoverSeries := cross.series
    matrix := if useTableMode then acc.matrix else [] }

/-- Finite-or-absent test for a nullable field. -/
def optFin : Option JNum → Bool
  | none => true
  | some a => a.isFin

/-- Every numeric field of the record is a finite number or the explicit
null marker (series/matrix entries included). -/
def JResult.allFinite (r : JResult) : Bool :=
  r.baseline.isFin && r.allElectric.isFin && optFin r.hybrid && r.hybridGasMMBtu.isFin &&
  r.hybridHPkWh.isFin && r.savingsAll.isFin && optFin r.savingsHybrid &&
  optFin r.paybackAll && optFin r.paybackHybrid && r.dfcSavings.isFin &&
  r.gasHeatCost.isFin && r.hpHeatCost.isFin && r.fuelSwitchSavings.isFin &&
  optFin r.crossoverTemp &&
  r.crossoverSeries.all (fun row => row.hp.isFin && row.gas.isFin) &&
  r.matrix.all (fun row => row.hpCost.isFin && row.gasCost.isFin)

/-! ### Lemmas: the stable sort used by the Pair Parser -/

/-- Inserting an element permutes to consing it. -/
theorem insertByX_perm (c : Coord) (l : List Coord) :
    List.Perm (insertByX c l) (c :: l) := by
  induction l with
  | nil => simp [insertByX]
  | cons d ds ih =>
    rw [insertByX]
    by_cases h : d.x ≤ c.x
    · rw [if_pos h]
      exact (ih.cons d).trans (List.Perm.swap c d ds)
    · rw [if_neg h]

/-- Membership after insertion. -/
theorem mem_insertByX {a c : Coord} {l : List Coord} :
    a ∈ insertByX c l ↔ a = c ∨ a ∈ l := by
  rw [(insertByX_perm c l).mem_iff, List.mem_cons]

/-- Insertion preserves the ascending-by-`x` pairwise order. -/
theorem pairwise_insertByX {c : Coord} {l : List Coord}
    (h : l.Pairwise (fun a b => a.x ≤ b.x)) :
    (insertByX c l).Pairwise (fun a b => a.x ≤ b.x) := by
  induction l with
  | nil => simp [insertByX]
  | cons d ds ih =>
    rw [List.pairwise_cons] at h
    rw [insertByX]
    by_cases hdc : d.x ≤ c.x
    · rw [if_pos hdc, List.pairwise_cons]
      refine ⟨fun a ha => ?_, ih h.2⟩
      rcases mem_insertByX.1 ha with rfl | hm
      · exact hdc
      · exact h.1 a hm
    · rw [if_neg hdc, List.pairwise_cons]
      refine ⟨fun a ha => ?_, List.pairwise_cons.2 h⟩
      rcases List.mem_cons.1 ha with rfl | hm
      · exact le_of_lt (lt_of_not_le hdc)
      · exact le_trans (le_of_lt (lt_of_not_le hdc)) (h.1 a hm)

/-- The fold of insertions permutes to appending the input. -/
theorem sortByX_perm_aux (l : List Coord) :
    ∀ acc : List Coord, List.Perm (l.foldl (fun a c => insertByX c a) acc) (acc ++ l) := by
  induction l with
  | nil => intro acc; simp
  | cons c cs ih =>
    intro acc
    rw [List.foldl_cons]
    exact (ih (insertByX c acc)).trans
      (((insertByX_perm c acc).append_right cs).trans List.perm_middle.symm)

/-- `sortByX` is a permutation of its input. -/
theorem sortByX_perm (l : List Coord) : List.Perm (sortByX l) l := by
  simpa using sortByX_perm_aux l []

/-- The fold of insertions preserves pairwise order of the accumulator. -/
theorem sortByX_pairwise_aux (l : List Coord) :
    ∀ acc : List Coord, acc.Pairwise (fun a b => a.x ≤ b.x) →
      (l.foldl (fun a c => insertByX c a) acc).Pairwise (fun a b => a.x ≤ b.x) := by
  induction l with
  | nil => intro acc h; exact h
  | cons c cs ih =>
    intro acc h
    rw [List.foldl_cons]
    exact ih (insertByX c acc) (pairwise_insertByX h)

/-- `sortByX` output is pairwise ascending in `x`. -/
theorem sortByX_pairwise (l : List Coord) :
    (sortByX l).Pairwise (fun a b => a.x ≤ b.x) :=
  sortByX_pairwise_aux l [] (by simp)

/-- The boolean sortedness check states adjacent-pair order. -/
theorem sortedByX_iff_chain :
    ∀ l : List Coord, sortedByX l = true ↔ List.Chain' (fun a b => a.x ≤ b.x) l
  | [] => by simp [sortedByX]
  | [a] => by simp [sortedByX]
  | a :: b :: l => by
    rw [sortedByX, Bool.and_eq_true, decide_eq_true_eq, List.chain'_cons,
      sortedByX_iff_chain (b :: l)]

/-- C4 (amended): for every input text the Pair Parser never fails; it
splits on newlines or commas, trims, drops empty entries, splits each
entry on `:` and keeps the first two fields (so an entry with a second
`:` such as "1:2:3" contributes the pair of its first two fields rather
than being discarded), discards entries where either kept field is not a
finite number, and returns exactly those survivors (as a multiset) sorted
ascending by `x`. -/
theorem parsePairs_sorted_and_perm (text : String) :
    sortedByX (parsePairs text) = true ∧ List.Perm (parsePairs text) (preParsePairs text) :=
  ⟨(sortedByX_iff_chain _).2 (sortByX_pairwise _).chain', sortByX_perm _⟩

/-- C4 (counterexample): the entry "1:2:3" is NOT discarded — `split(":")`
splits on every colon and the first two fields parse, so the pair (1, 2)
survives, contradicting the claim that the right side of the first colon
("2:3") is parsed and the entry dropped. -/
theorem parsePairs_colon_cex : parsePairs "1:2:3" = [⟨1, 2⟩] := by decide

/-! ### Lemmas: the COP interpolator -/

/-- C10: a table with exactly one entry returns that entry's `y` for every
query temperature — the two flat-extrapolation branches cover all reals,
so a one-entry table behaves as a constant COP function. -/
theorem interpCOP_singleton (c : Coord) (t : ℚ) : interpCOP [c] t = c.y := by
  by_cases h : t ≤ c.x
  · simp [interpCOP, h]
  · simp [interpCOP, h, le_of_lt (lt_of_not_le h)]

/-- The last element of a nonempty list, through `getLastD` on its tail. -/
theorem getLast?_eq_getLastD :
    ∀ (c : Coord) (cs : List Coord), (c :: cs).getLast? = some (cs.getLastD c)
  | _, [] => rfl
  | c, b :: bs => by
    rw [List.getLastD_cons]
    have h := getLast?_eq_getLastD b bs
    simpa using h

/-- The spec's bracketing-pair finder: the first adjacent pair `(a, b)`
with `a.x ≤ t ≤ b.x`. -/
def bracketScan (t : ℚ) : List Coord → Option (Coord × Coord)
  | a :: b :: rest => if a.x ≤ t ∧ t ≤ b.x then some (a, b) else bracketScan t (b :: rest)
  | _ => none

/-- The code's scan loop returns exactly the spec formula at the first
bracketing pair. -/
theorem interpScan_eq_bracketScan (t : ℚ) :
    ∀ l : List Coord,
      interpScan t l = (bracketScan t l).map
        (fun p => p.1.y + (t - p.1.x) / (if p.2.x - p.1.x = 0 then 1 else p.2.x - p.1.x) *
          (p.2.y - p.1.y))
  | [] => rfl
  | [a] => rfl
  | a :: b :: rest => by
    rw [interpScan, bracketScan]
    by_cases h : a.x ≤ t ∧ t ≤ b.x
    · rw [if_pos h, if_pos h]
      rfl
    · rw [if_neg h, if_neg h]
      exact interpScan_eq_bracketScan t (b :: rest)

/-- On a sorted table a strictly interior query always has a bracketing
pair. -/
theorem bracketScan_isSome (t : ℚ) :
    ∀ (c : Coord) (cs : List Coord), List.Chain' (fun a b => a.x ≤ b.x) (c :: cs) →
      c.x < t → t < (cs.getLastD c).x → ∃ p, bracketScan t (c :: cs) = some p
  | c, [], _, hlt, hgt => absurd (lt_trans hlt hgt) (lt_irrefl c.x)
  | c, b :: bs, hch, hlt, hgt => by
    by_cases h : t ≤ b.x
    · exact ⟨(c, b), by rw [bracketScan, if_pos ⟨le_of_lt hlt, h⟩]⟩
    · have hbt : b.x < t := lt_of_not_le h
      have hlast : t < (bs.getLastD b).x := by
        rwa [List.getLastD_cons] at hgt
      obtain ⟨p, hp⟩ := bracketScan_isSome t b bs hch.tail hbt hlast
      refine ⟨p, ?_⟩
      rw [bracketScan, if_neg (fun hc => h hc.2)]
      exact hp

/-- C5: on a sorted table the interpolator returns `2.2` when the table is
empty, the first `y` at or below the first `x`, the last `y` at or above
the last `x`, and otherwise the linear interpolation over the first
adjacent bracketing pair, with a zero-width denominator treated as `1`. -/
theorem interpCOP_meets_spec (table : List Coord) (t : ℚ)
    (hs : sortedByX table = true) :
    (table = [] → interpCOP table t = 11 / 5) ∧
    (∀ c, table.head? = some c → t ≤ c.x → interpCOP table t = c.y) ∧
    (∀ c d, table.head? = some c → table.getLast? = some d → c.x < t → d.x ≤ t →
      interpCOP table t = d.y) ∧
    (∀ c d, table.head? = some c → table.getLast? = some d → c.x < t → t < d.x →
      ∃ a b, bracketScan t table = some (a, b) ∧
        interpCOP table t =
          a.y + (t - a.x) / (if b.x - a.x = 0 then 1 else b.x - a.x) * (b.y - a.y)) := by
  match table, hs with
  | [], _ =>
    refine ⟨fun _ => rfl, ?_, ?_, ?_⟩
    · intro c hc ht
      simp at hc
    · intro c d hc hd h1 h2
      simp at hc
    · intro c d hc hd h1 h2
      simp at hc
  | c :: cs, hs =>
    have hlastD : ∀ d : Coord, (c :: cs).getLast? = some d → cs.getLastD c = d := by
      intro d hd
      have h2 := getLast?_eq_getLastD c cs
      rw [hd] at h2
      exact Option.some_injective _ h2.symm
    refine ⟨fun h => by simp at h, ?_, ?_, ?_⟩
    · intro c' hc' ht
      have hce : c' = c := by simpa [eq_comm] using hc'
      subst hce
      simp only [interpCOP]
      rw [if_pos ht]
    · intro c' d hc' hd hlt hge
      have hce : c' = c := by simpa [eq_comm] using hc'
      subst hce
      have hlast := hlastD d hd
      simp only [interpCOP]
      rw [hlast, if_neg (not_le_of_lt hlt), if_pos hge]
    · intro c' d hc' hd hlt hgt
      have hce : c' = c := by simpa [eq_comm] using hc'
      subst hce
      have hlast := hlastD d hd
      have hch : List.Chain' (fun a b => a.x ≤ b.x) (c' :: cs) := (sortedByX_iff_chain _).1 hs
      obtain ⟨⟨a, b⟩, hp⟩ := bracketScan_isSome t c' cs hch hlt (by rw [hlast]; exact hgt)
      refine ⟨a, b, hp, ?_⟩
      simp only [interpCOP]
      rw [hlast, if_neg (not_le_of_lt hlt), if_neg (not_le_of_lt hgt),
        interpScan_eq_bracketScan, hp]
      rfl

/-- C5 (witness): the spec description instantiated on the two-point table
`(0, 1), (10, 3)` at the interior query `t = 5`. -/
theorem interpCOP_meets_spec_witness :
    (([(⟨0, 1⟩ : Coord), ⟨10, 3⟩] : List Coord) = [] →
      interpCOP [⟨0, 1⟩, ⟨10, 3⟩] 5 = 11 / 5) ∧
    (∀ c, ([(⟨0, 1⟩ : Coord), ⟨10, 3⟩] : List Coord).head? = some c → (5:ℚ) ≤ c.x →
      interpCOP [⟨0, 1⟩, ⟨10, 3⟩] 5 = c.y) ∧
    (∀ c d, ([(⟨0, 1⟩ : Coord), ⟨10, 3⟩] : List Coord).head? = some c →
      ([(⟨0, 1⟩ : Coord), ⟨10, 3⟩] : List Coord).getLast? = some d → c.x < 5 → d.x ≤ 5 →
      interpCOP [⟨0, 1⟩, ⟨10, 3⟩] 5 = d.y) ∧
    (∀ c d, ([(⟨0, 1⟩ : Coord), ⟨10, 3⟩] : List Coord).head? = some c →
      ([(⟨0, 1⟩ : Coord), ⟨10, 3⟩] : List Coord).getLast? = some d → c.x < 5 → (5:ℚ) < d.x →
      ∃ a b, bracketScan 5 [⟨0, 1⟩, ⟨10, 3⟩] = some (a, b) ∧
        interpCOP [⟨0, 1⟩, ⟨10, 3⟩] 5 =
          a.y + ((5:ℚ) - a.x) / (if b.x - a.x = 0 then 1 else b.x - a.x) * (b.y - a.y)) :=
  interpCOP_meets_spec [⟨0, 1⟩, ⟨10, 3⟩] 5 (by decide)

/-! ### Lemmas: the bin normalizer -/

/-- The reduce-style total is the sum of the `y` values. -/
theorem binsTotal_eq_sum (bins : List Coord) :
    binsTotal bins = (bins.map (fun r => r.y)).sum := by
  suffices h : ∀ (l : List Coord) (a : ℚ),
      l.foldl (fun s r => s + r.y) a = a + (l.map (fun r => r.y)).sum by
    simpa [binsTotal] using h bins 0
  intro l
  induction l with
  | nil => intro a; simp
  | cons c cs ih =>
    intro a
    simp [List.foldl_cons, ih, add_assoc]

/-- Scalar factors slide out of a mapped sum. -/
theorem sum_map_mul_k (l : List Coord) (f : Coord → ℚ) (k : ℚ) :
    (l.map (fun b => f b * k)).sum = (l.map f).sum * k := by
  induction l with
  | nil => simp
  | cons c cs ih => simp [ih, add_mul]

/-- Length is preserved by the normalizer. -/
theorem normalizeBins_length (bins : List Coord) :
    (normalizeBins bins).length = bins.length := by
  simp [normalizeBins]

/-- C6 (amended): with a nonzero total the normalized weights sum to
exactly 100, the `x` values and relative proportions are preserved; with a
zero total the divisor is 1, so each output weight is `100 * y` (in
particular an all-zero input yields all-zero output — but a zero-sum input
with mixed signs does NOT). -/
theorem normalizeBins_meets_spec (bins : List Coord) :
    (binsTotal bins ≠ 0 → ((normalizeBins bins).map (fun r => r.y)).sum = 100) ∧
    ((normalizeBins bins).map (fun r => r.x) = bins.map (fun r => r.x)) ∧
    (∀ i j, (hi : i < bins.length) → (hj : j < bins.length) →
      ((normalizeBins bins).get ⟨i, by rwa [normalizeBins_length]⟩).y * (bins.get ⟨j, hj⟩).y =
      ((normalizeBins bins).get ⟨j, by rwa [normalizeBins_length]⟩).y * (bins.get ⟨i, hi⟩).y) ∧
    (binsTotal bins = 0 → normalizeBins bins = bins.map (fun r => ⟨r.x, r.y * 100⟩)) ∧
    ((∀ p ∈ bins, p.y = 0) → ∀ q ∈ normalizeBins bins, q.y = 0) := by
  refine ⟨?_, ?_, ?_, ?_, ?_⟩
  · intro h0
    have hmap : (normalizeBins bins).map (fun r => r.y) =
        bins.map (fun r => r.y * (100 / binsTotal bins)) := by
      simp only [normalizeBins, h0, if_neg h0, List.map_map]
      refine List.map_congr_left (fun b _ => ?_)
      simp only [Function.comp, if_false]
      ring
    rw [hmap, sum_map_mul_k, ← binsTotal_eq_sum]
    field_simp
  · simp [normalizeBins, List.map_map]
  · intro i j hi hj
    simp only [normalizeBins, List.get_map]
    ring
  · intro h0
    simp [normalizeBins, h0]
  · intro hall q hq
    simp only [normalizeBins, List.mem_map] at hq
    obtain ⟨p, hp, rfl⟩ := hq
    simp [hall p hp]

/-- C6 (counterexample): a zero-sum input with mixed signs does not come
out all-zero — the divisor falls back to 1 and the weights are scaled by
100, contradicting the claim that every output weight is 0. -/
theorem normalizeBins_zero_sum_cex :
    binsTotal [(⟨0, 1⟩ : Coord), ⟨1, -1⟩] = 0 ∧
    normalizeBins [(⟨0, 1⟩ : Coord), ⟨1, -1⟩] = [⟨0, 100⟩, ⟨1, -100⟩] := by
  constructor
  · decide
  · decide

/-- C6 (witness): the spec statement instantiated on a two-bin list with
total 4, whose normalized weights are 50 and 50. -/
theorem normalizeBins_meets_spec_witness :
    ((normalizeBins [(⟨0, 2⟩ : Coord), ⟨1, 2⟩]).map (fun r => r.y)).sum = 100 :=
  (normalizeBins_meets_spec [⟨0, 2⟩, ⟨1, 2⟩]).1 (by decide)

/-! ### The crossover note for too-small tables (C2) -/

/-- C2 (amended): with table mode ON and fewer than 2 parsed entries, the
crossover temperature is the explicit null marker, but the note is the
EMPTY string — the "provide a COP table" note is emitted only when table
mode is off. -/
theorem crossover_small_table (v : Vals) (ct bt : String)
    (h : (parsePairs ct).length < 2) :
    (calcV v true ct bt).crossoverTemp = none ∧ (calcV v true ct bt).crossoverNote = "" := by
  have h1 : ¬ ((parsePairs ct).length > 1) := by omega
  constructor <;> simp [calcV, crossoverQ, h1]

/-- C2 (counterexample): a one-entry table in table mode leaves
`crossoverNote` as the empty string, not the claimed non-empty
"provide a COP table" informational note. -/
theorem crossover_small_table_cex :
    (parsePairs "60:3").length = 1 ∧
    (calcV DEFAULTS true "60:3" "50:100").crossoverTemp = none ∧
    (calcV DEFAULTS true "60:3" "50:100").crossoverNote = "" :=
  ⟨by decide, by decide, by decide⟩

/-- C2 (witness): the amended statement instantiated at the defaults with
a one-entry table. -/
theorem crossover_small_table_witness :
    (calcV DEFAULTS true "60:3" "50:100").crossoverTemp = none ∧
    (calcV DEFAULTS true "60:3" "50:100").crossoverNote = "" :=
  crossover_small_table DEFAULTS "60:3" "50:100" (by decide)

/-! ### Payback (C3) -/

/-- C3 (amended): payback is null whenever savings are not positive, and
also — via JS truthiness of 0 — whenever `gross = credits` (a computed
payback of exactly 0 collapses to null); when savings are positive and
`net ≠ 0` the field is `net / savings` rounded to one decimal.  Likewise
for the hybrid payback. -/
theorem payback_meets_code (v : Vals) (flag : Bool) (ct bt : String) :
    ((savingsAllQ v flag ct bt ≤ 0 → (calcV v flag ct bt).paybackAll = none) ∧
     (0 < savingsAllQ v flag ct bt → netQ v = 0 → (calcV v flag ct bt).paybackAll = none) ∧
     (0 < savingsAllQ v flag ct bt → netQ v ≠ 0 →
       (calcV v flag ct bt).paybackAll =
         some (toFixedQ 1 (netQ v / savingsAllQ v flag ct bt)))) ∧
    ((savingsHybridQ v flag ct bt = none → (calcV v flag ct bt).paybackHybrid = none) ∧
     (∀ s, savingsHybridQ v flag ct bt = some s →
       ((s ≤ 0 → (calcV v flag ct bt).paybackHybrid = none) ∧
        (0 < s → netQ v = 0 → (calcV v flag ct bt).paybackHybrid = none) ∧
        (0 < s → netQ v ≠ 0 →
          (calcV v flag ct bt).paybackHybrid = some (toFixedQ 1 (netQ v / s)))))) := by
  constructor
  · refine ⟨?_, ?_, ?_⟩
    · intro hs
      have h1 : ¬ (0 < savingsAllQ v flag ct bt) := not_lt.mpr hs
      simp [calcV, paybackAllQ, paybackFieldQ, h1]
    · intro hs hnet
      simp [calcV, paybackAllQ, paybackFieldQ, hs, hnet]
    · intro hs hnet
      have h2 : netQ v / savingsAllQ v flag ct bt ≠ 0 := div_ne_zero hnet (ne_of_gt hs)
      simp [calcV, paybackAllQ, paybackFieldQ, hs, h2]
  · constructor
    · intro hnone
      simp [calcV, paybackHybridQ, paybackFieldQ, hnone]
    · intro s hs
      refine ⟨?_, ?_, ?_⟩
      · intro hle
        have h1 : ¬ (s ≠ 0 ∧ 0 < s) := by
          rintro ⟨_, hpos⟩
          exact absurd hpos (not_lt.mpr hle)
        simp [calcV, paybackHybridQ, paybackFieldQ, hs, h1]
      · intro hpos hnet
        have h1 : s ≠ 0 ∧ 0 < s := ⟨ne_of_gt hpos, hpos⟩
        simp [calcV, paybackHybridQ, paybackFieldQ, hs, h1, hnet]
      · intro hpos hnet
        have h1 : s ≠ 0 ∧ 0 < s := ⟨ne_of_gt hpos, hpos⟩
        have h2 : netQ v / s ≠ 0 := div_ne_zero hnet (ne_of_gt hpos)
        simp [calcV, paybackHybridQ, paybackFieldQ, hs, h1, h2]

/-- A rate profile with positive savings and `gross = credits`. -/
def vZeroNet : Vals := ⟨0, 100, 0, 0, 0, 10, 0, 1, 1, 293071/1000, 5, 5⟩

/-- The same profile with `gross ≠ credits`. -/
def vPosNet : Vals := ⟨0, 100, 0, 0, 0, 10, 0, 1, 1, 293071/1000, 104, 5⟩

/-- C3 (counterexample): with `gross = credits` and positive savings the
output payback field is null, not the claimed 0 = (gross − credits) /
savings. -/
theorem payback_zero_collapses_cex :
    0 < savingsAllQ vZeroNet false "" "" ∧ netQ vZeroNet = 0 ∧
    (calcV vZeroNet false "" "").paybackAll = none :=
  ⟨by decide, by decide, by decide⟩

/-- C3 (witness): with positive savings and nonzero net cost the payback
field is the rounded quotient. -/
theorem payback_meets_code_witness :
    (calcV vPosNet false "" "").paybackAll =
      some (toFixedQ 1 (netQ vPosNet / savingsAllQ vPosNet false "" "")) :=
  (payback_meets_code vPosNet false "" "").1.2.2 (by decide) (by decide)

/-! ### The all-electric scenario in non-table mode (C9) -/

/-- C9: with table mode off, the heating electricity is exactly
`heatMMBtu * 293.071 / seasonalCOP` (in particular at the default seasonal
COP 2.2), and the all-electric cost is `(kwhBase + heatingKWh) * allInEH`,
with the output field its rounding. -/
theorem allElectric_formula (v : Vals) (ct bt : String) :
    hpKWhQ v false ct bt = v.heatMMBtu * c293 / v.seasonalCOP ∧
    (v.seasonalCOP = 11/5 → hpKWhQ v false ct bt = v.heatMMBtu * c293 / (11/5)) ∧
    allElectricQ v false ct bt = (v.kwhBase + hpKWhQ v false ct bt) * allInEH v ∧
    (calcV v false ct bt).allElectric =
      jsRound ((v.kwhBase + hpKWhQ v false ct bt) * allInEH v) := by
  refine ⟨rfl, ?_, rfl, ?_⟩
  · intro h
    simp [hpKWhQ, h]
  · simp [calcV, allElectricQ]

/-- C9 (witness): the defaults have seasonal COP 2.2, so the heating kWh
is `heatMMBtu * 293.071 / 2.2` exactly. -/
theorem allElectric_formula_witness :
    hpKWhQ DEFAULTS false "" "" = DEFAULTS.heatMMBtu * c293 / (11/5) :=
  (allElectric_formula DEFAULTS "" "").2.1 (by decide)

/-! ### Hybrid dominance (C7) -/

/-- A bin's heat share in MMBtu. -/
def binMMBtu (v : Vals) (b : Coord) : ℚ := v.heatMMBtu * (b.y / 100)

/-- kWh needed per MMBtu at a bin's temperature. -/
def binKWh (table : List Coord) (b : Coord) : ℚ := c293 / interpCOP table b.x

/-- A bin's dispatched (cheaper-fuel) cost, ties to the heat pump. -/
def binChosen (v : Vals) (table : List Coord) (b : Coord) : ℚ :=
  if binKWh table b * allInEH v ≤ costGasPerMMBtuQ v then
    binMMBtu v b * (binKWh table b * allInEH v)
  else binMMBtu v b * costGasPerMMBtuQ v

/-- The bin loop's accumulated kWh is the sum of per-bin kWh. -/
theorem foldl_binStep_hpKWh (v : Vals) (table : List Coord) :
    ∀ (l : List Coord) (a : BinAcc),
      (l.foldl (binStep v table) a).hpKWh =
        a.hpKWh + (l.map (fun b => binMMBtu v b * binKWh table b)).sum := by
  intro l
  induction l with
  | nil => intro a; simp
  | cons b bs ih =>
    intro a
    rw [List.foldl_cons, ih]
    have hstep : (binStep v table a b).hpKWh = a.hpKWh + binMMBtu v b * binKWh table b := by
      simp only [binStep, binMMBtu, binKWh]
      split <;> rfl
    rw [hstep]
    simp [add_assoc]

/-- The bin loop's accumulated hybrid heating cost is the sum of per-bin
dispatched costs. -/
theorem foldl_binStep_chosen (v : Vals) (table : List Coord) :
    ∀ (l : List Coord) (a : BinAcc),
      (l.foldl (binStep v table) a).costHPsum + (l.foldl (binStep v table) a).costGASsum =
        a.costHPsum + a.costGASsum + (l.map (binChosen v table)).sum := by
  intro l
  induction l with
  | nil => intro a; simp
  | cons b bs ih =>
    intro a
    rw [List.foldl_cons, ih]
    have hstep : (binStep v table a b).costHPsum + (binStep v table a b).costGASsum =
        a.costHPsum + a.costGASsum + binChosen v table b := by
      simp only [binStep, binChosen, binMMBtu, binKWh]
      split
      · ring
      · ring
    rw [List.map_cons, List.sum_cons]
    linarith [hstep]

/-- Nonnegative weights stay nonnegative through the normalizer. -/
theorem normalizeBins_nonneg (bins : List Coord) (h : ∀ p ∈ bins, 0 ≤ p.y) :
    ∀ p ∈ normalizeBins bins, 0 ≤ p.y := by
  intro p hp
  simp only [normalizeBins, List.mem_map] at hp
  obtain ⟨q, hq, rfl⟩ := hp
  have hq0 := h q hq
  have htot0 : 0 ≤ binsTotal bins := by
    rw [binsTotal_eq_sum]
    refine List.sum_nonneg ?_
    intro x hx
    obtain ⟨r, hr, rfl⟩ := List.mem_map.1 hx
    exact h r hr
  have htot : (0:ℚ) < (if binsTotal bins = 0 then 1 else binsTotal bins) := by
    split
    · norm_num
    · rename_i hne
      exact lt_of_le_of_ne htot0 (Ne.symm hne)
  exact div_nonneg (mul_nonneg hq0 (by norm_num)) htot.le

/-- The normalized weights sum to 100, or to 0 when the input total is 0. -/
theorem normalizeBins_sum_y (bins : List Coord) :
    ((normalizeBins bins).map (fun r => r.y)).sum =
      if binsTotal bins = 0 then 0 else 100 := by
  by_cases h0 : binsTotal bins = 0
  · rw [if_pos h0]
    have hmap : (normalizeBins bins).map (fun r => r.y) =
        bins.map (fun b => b.y * 100) := by
      simp only [normalizeBins, h0, if_true, List.map_map]
      refine List.map_congr_left (fun b _ => ?_)
      simp only [Function.comp, if_true]
      norm_num
    rw [hmap, sum_map_mul_k, ← binsTotal_eq_sum, h0, zero_mul]
  · rw [if_neg h0]
    exact (normalizeBins_meets_spec bins).1 h0

/-- Rounding is monotone. -/
theorem jsRound_mono {a b : ℚ} (h : a ≤ b) : jsRound a ≤ jsRound b :=
  Int.floor_le_floor (by linarith)

/-- `baselineGas` is the heat load times the per-MMBtu gas cost. -/
theorem baselineGas_eq (v : Vals) :
    baselineGasQ v = v.heatMMBtu * costGasPerMMBtuQ v := by
  unfold baselineGasQ costGasPerMMBtuQ
  ring

/-- C7 (amended): with a nonnegative heat load and nonnegative bin
weights, the hybrid cost never exceeds the all-electric cost (both exact
and rounded); it additionally never exceeds the baseline cost provided
`dfcEH ≤ dfcNon`, `kwhBase ≥ 0` and the gas unit cost is nonnegative —
but NOT for arbitrary rates (see the counterexample with
`dfcEH > dfcNon`). -/
theorem hybrid_dominance (v : Vals) (ct bt : String)
    (hheat : 0 ≤ v.heatMMBtu)
    (hbins : ∀ p ∈ parsePairs bt, 0 ≤ p.y) :
    ∀ h, hybridQ v true ct bt = some h →
      (h ≤ allElectricQ v true ct bt ∧
        (calcV v true ct bt).hybrid = some (jsRound h) ∧
        jsRound h ≤ (calcV v true ct bt).allElectric) ∧
      (v.dfcEH ≤ v.dfcNon → 0 ≤ v.kwhBase → 0 ≤ costGasPerMMBtuQ v →
        h ≤ baselineQ v ∧ jsRound h ≤ (calcV v true ct bt).baseline) := by
  intro h hs
  have hval : h = v.kwhBase * allInEH v + (binAccQ v ct bt).costHPsum +
      (binAccQ v ct bt).costGASsum := by
    have h2 : hybridQ v true ct bt = some (v.kwhBase * allInEH v +
        (binAccQ v ct bt).costHPsum + (binAccQ v ct bt).costGASsum) := rfl
    rw [h2] at hs
    exact (Option.some_injective _ hs).symm
  set nb := normalizeBins (parsePairs bt) with hnb
  have hnbpos : ∀ p ∈ nb, 0 ≤ p.y := normalizeBins_nonneg _ hbins
  have hmm : ∀ b ∈ nb, 0 ≤ binMMBtu v b := by
    intro b hb
    exact mul_nonneg hheat (div_nonneg (hnbpos b hb) (by norm_num))
  have hchosen : (binAccQ v ct bt).costHPsum + (binAccQ v ct bt).costGASsum =
      (nb.map (binChosen v (parsePairs ct))).sum := by
    have h3 := foldl_binStep_chosen v (parsePairs ct) nb ⟨0, 0, 0, 0, []⟩
    simpa [binAccQ] using h3
  have hkwh : (binAccQ v ct bt).hpKWh =
      (nb.map (fun b => binMMBtu v b * binKWh (parsePairs ct) b)).sum := by
    have h3 := foldl_binStep_hpKWh v (parsePairs ct) nb ⟨0, 0, 0, 0, []⟩
    simpa [binAccQ] using h3
  have hhyb : (calcV v true ct bt).hybrid = (hybridQ v true ct bt).map jsRound := rfl
  constructor
  · have hsum_le : (nb.map (binChosen v (parsePairs ct))).sum ≤
        (nb.map (fun b => binMMBtu v b * binKWh (parsePairs ct) b * allInEH v)).sum := by
      refine List.sum_le_sum ?_
      intro b hb
      rw [binChosen]
      split
      · exact le_of_eq (by ring)
      · rename_i hgt
        have hlt := lt_of_not_le hgt
        calc binMMBtu v b * costGasPerMMBtuQ v
            ≤ binMMBtu v b * (binKWh (parsePairs ct) b * allInEH v) :=
              mul_le_mul_of_nonneg_left hlt.le (hmm b hb)
          _ = binMMBtu v b * binKWh (parsePairs ct) b * allInEH v := by ring
    have hae : allElectricQ v true ct bt = v.kwhBase * allInEH v +
        (nb.map (fun b => binMMBtu v b * binKWh (parsePairs ct) b)).sum * allInEH v := by
      have h3 : allElectricQ v true ct bt =
          (v.kwhBase + (binAccQ v ct bt).hpKWh) * allInEH v := rfl
      rw [h3, hkwh]
      ring
    have hfac : (nb.map (fun b => binMMBtu v b * binKWh (parsePairs ct) b * allInEH v)).sum =
        (nb.map (fun b => binMMBtu v b * binKWh (parsePairs ct) b)).sum * allInEH v :=
      sum_map_mul_k nb (fun b => binMMBtu v b * binKWh (parsePairs ct) b) (allInEH v)
    have h1 : h ≤ allElectricQ v true ct bt := by
      linarith [hval, hchosen, hae, hsum_le, hfac]
    refine ⟨h1, ?_, ?_⟩
    · rw [hhyb, hs]
      rfl
    · have h4 : (calcV v true ct bt).allElectric = jsRound (allElectricQ v true ct bt) := rfl
      rw [h4]
      exact jsRound_mono h1
  · intro hdfc hkb hgas
    have hsum_le : (nb.map (binChosen v (parsePairs ct))).sum ≤
        (nb.map (fun b => b.y * (v.heatMMBtu * costGasPerMMBtuQ v / 100))).sum := by
      refine List.sum_le_sum ?_
      intro b hb
      rw [binChosen]
      have hbound : binMMBtu v b * costGasPerMMBtuQ v =
          b.y * (v.heatMMBtu * costGasPerMMBtuQ v / 100) := by
        rw [binMMBtu]
        ring
      split
      · rename_i hle
        rw [← hbound]
        exact mul_le_mul_of_nonneg_left hle (hmm b hb)
      · rw [← hbound]
    have hfac2 : (nb.map (fun b => b.y * (v.heatMMBtu * costGasPerMMBtuQ v / 100))).sum =
        (nb.map (fun b => b.y)).sum * (v.heatMMBtu * costGasPerMMBtuQ v / 100) :=
      sum_map_mul_k nb (fun b => b.y) _
    have hy := normalizeBins_sum_y (parsePairs bt)
    rw [← hnb] at hy
    have hsum_gas : (nb.map (fun b => b.y * (v.heatMMBtu * costGasPerMMBtuQ v / 100))).sum ≤
        baselineGasQ v := by
      rw [hfac2, hy, baselineGas_eq]
      split
      · rw [zero_mul]
        exact mul_nonneg hheat hgas
      · exact le_of_eq (by ring)
    have hbase_elec : v.kwhBase * allInEH v ≤ v.kwhBase * allInNon v := by
      refine mul_le_mul_of_nonneg_left ?_ hkb
      unfold allInEH allInNon
      linarith
    have hbq : baselineQ v = v.kwhBase * allInNon v + baselineGasQ v := by
      unfold baselineQ baselineElecQ
      ring
    have h2 : h ≤ baselineQ v := by
      linarith [hval, hchosen, hsum_le, hsum_gas, hbase_elec, hbq]
    refine ⟨h2, ?_⟩
    have h4 : (calcV v true ct bt).baseline = jsRound (baselineQ v) := rfl
    rw [h4]
    exact jsRound_mono h2

/-- A profile where the electric-heat delivery charge EXCEEDS the
non-electric one and gas is free. -/
def vHyb : Vals := ⟨100, 0, 0, 0, 100, 0, 0, 1, 375/10, 11/5, 0, 0⟩

/-- C7 (counterexample): with `dfcEH > dfcNon` the hybrid cost (100)
exceeds the baseline cost (0), so hybrid does NOT stay below
`min(all-electric, baseline)` for all rate inputs. -/
theorem hybrid_dominance_cex :
    (calcV vHyb true "40:3\n50:3" "50:1").hybrid = some 100 ∧
    (calcV vHyb true "40:3\n50:3" "50:1").baseline = 0 ∧
    ¬ ((100:ℤ) ≤ min (calcV vHyb true "40:3\n50:3" "50:1").allElectric
        (calcV vHyb true "40:3\n50:3" "50:1").baseline) :=
  ⟨by decide, by decide, by decide⟩

/-- C7 (witness): the amended dominance instantiated at the defaults with
a small table and bins. -/
theorem hybrid_dominance_witness :
    (4047453/500 : ℚ) ≤ allElectricQ DEFAULTS true "0:2,10:3" "5:60,15:40" :=
  ((hybrid_dominance DEFAULTS "0:2,10:3" "5:60,15:40" (by decide) (by decide)
    (4047453/500) (by decide)).1).1

/-! ### The crossover series (C8) -/

/-- The scan's lower grid bound, `min(-20, table[0].x)`. -/
def tMinOf (ct : String) : ℚ := min (-20) ((parsePairs ct).headD ⟨0, 0⟩).x

/-- The scan's upper grid bound, `max(65, lastTableTemp)`. -/
def tMaxOf (ct : String) : ℚ := max 65 ((parsePairs ct).getLastD ⟨0, 0⟩).x

/-- The crossover scan exactly as invoked by the crossover block. -/
def crossScanOf (v : Vals) (ct : String) : List CrossRow × Option ℚ :=
  crossScan (parsePairs ct) (allInEH v) (costGasPerMMBtuQ v)
    (numSteps (tMinOf ct) (tMaxOf ct)) (tMinOf ct) (tMinOf ct)
    (hpUnitCost (parsePairs ct) (allInEH v) (tMinOf ct) - costGasPerMMBtuQ v)

/-- With more than one table entry, the crossover block's temperature and
series are exactly the scan's outputs (whatever the note). -/
theorem crossoverQ_eq (v : Vals) (ct : String) (hlen : (parsePairs ct).length > 1) :
    (crossoverQ v true ct).temp = (crossScanOf v ct).2 ∧
    (crossoverQ v true ct).series = (crossScanOf v ct).1 := by
  have h0 : crossoverQ v true ct =
      (if (parsePairs ct).length > 1 then
        (match (crossScanOf v ct).2 with
         | some c => (⟨some c, "", (crossScanOf v ct).1⟩ : CrossOut)
         | none =>
           ⟨none,
            if hpUnitCost (parsePairs ct) (allInEH v) (tMinOf ct) - costGasPerMMBtuQ v < 0 ∧
                hpUnitCost (parsePairs ct) (allInEH v) (tMaxOf ct) - costGasPerMMBtuQ v < 0 then
              "HP cheaper at all temps"
            else if 0 < hpUnitCost (parsePairs ct) (allInEH v) (tMinOf ct) -
                  costGasPerMMBtuQ v ∧
                0 < hpUnitCost (parsePairs ct) (allInEH v) (tMaxOf ct) - costGasPerMMBtuQ v then
              "Gas cheaper at all temps"
            else "Crossover outside modeled range",
            (crossScanOf v ct).1⟩)
      else ⟨none, "", []⟩) := rfl
  rw [h0, if_pos hlen]
  cases hsc : (crossScanOf v ct).2 with
  | none => exact ⟨rfl, rfl⟩
  | some c => exact ⟨rfl, rfl⟩

/-- When the scan finds no crossing, the series it returns has one point
at every integer-spaced step of the remaining domain. -/
theorem crossScan_none_full (table : List Coord) (rate costGas : ℚ) :
    ∀ (n : ℕ) (t0 pT pD : ℚ) (rows : List CrossRow),
      crossScan table rate costGas n t0 pT pD = (rows, none) →
      rows = (List.range n).map
        (fun k => ⟨t0 + k, hpUnitCost table rate (t0 + k), costGas⟩) := by
  intro n
  induction n with
  | zero =>
    intro t0 pT pD rows h
    simp only [crossScan] at h
    rw [Prod.mk.injEq] at h
    simp [h.1.symm]
  | succ m ih =>
    intro t0 pT pD rows h
    simp only [crossScan] at h
    split at h
    · rw [Prod.mk.injEq] at h
      simp at h
    · rw [Prod.mk.injEq] at h
      obtain ⟨h1, h2⟩ := h
      have hnext : crossScan table rate costGas m (t0 + 1) t0
          (hpUnitCost table rate t0 - costGas) =
          ((crossScan table rate costGas m (t0 + 1) t0
            (hpUnitCost table rate t0 - costGas)).1, none) := by
        rw [← h2]
      have hrest := ih (t0 + 1) t0 (hpUnitCost table rate t0 - costGas) _ hnext
      rw [← h1, List.range_succ_eq_map, List.map_cons, List.map_map]
      congr 1
      · simp
      · rw [hrest]
        refine List.map_congr_left (fun k _ => ?_)
        have harg : t0 + 1 + (k : ℚ) = t0 + ((Nat.succ k : ℕ) : ℚ) := by
          push_cast
          ring
        simp only [Function.comp]
        rw [harg]

/-- C8 (amended): when NO crossover is detected, the series covers every
integer-spaced step from `min(-20, table[0].x)` to `max(65, lastTemp)`
inclusive; when a crossover IS found the loop breaks and the series stops
at the detection step (see the counterexample). -/
theorem crossoverSeries_full_when_no_crossover (v : Vals) (ct bt : String)
    (hlen : (parsePairs ct).length > 1)
    (hnone : (calcV v true ct bt).crossoverTemp = none) :
    (calcV v true ct bt).crossoverSeries =
      (List.range (numSteps (tMinOf ct) (tMaxOf ct))).map
        (fun k => ⟨tMinOf ct + k,
          hpUnitCost (parsePairs ct) (allInEH v) (tMinOf ct + k), costGasPerMMBtuQ v⟩) ∧
    numSteps (tMinOf ct) (tMaxOf ct) = (⌊tMaxOf ct - tMinOf ct⌋).toNat + 1 := by
  have htemp : (calcV v true ct bt).crossoverTemp = (crossoverQ v true ct).temp := rfl
  have hser : (calcV v true ct bt).crossoverSeries = (crossoverQ v true ct).series := rfl
  obtain ⟨h1, h2⟩ := crossoverQ_eq v ct hlen
  rw [htemp, h1] at hnone
  rw [hser, h2]
  constructor
  · have hpair : crossScanOf v ct = ((crossScanOf v ct).1, none) := by
      rw [← hnone]
    exact crossScan_none_full (parsePairs ct) (allInEH v) (costGasPerMMBtuQ v)
      (numSteps (tMinOf ct) (tMaxOf ct)) (tMinOf ct) (tMinOf ct)
      (hpUnitCost (parsePairs ct) (allInEH v) (tMinOf ct) - costGasPerMMBtuQ v)
      (crossScanOf v ct).1 hpair
  · have hmin : tMinOf ct ≤ -20 := min_le_left _ _
    have hmax : (65:ℚ) ≤ tMaxOf ct := le_max_left _ _
    rw [numSteps, if_neg (not_lt.mpr (by linarith))]

/-- A profile with all rates zero: the cost difference is identically 0. -/
def vFlat : Vals := ⟨0, 0, 0, 0, 0, 0, 0, 1, 1, 1, 0, 0⟩

/-- C8 (counterexample): the scan `break`s once a crossover is found —
with all rates zero it triggers at the very first grid step, so the
series holds a single entry at t = -20 and no entry at t = 65, although
the table has 2 entries and the claimed domain is -20…65. -/
theorem crossoverSeries_truncated_cex :
    (parsePairs "0:1,10:1").length = 2 ∧
    (calcV vFlat true "0:1,10:1" "0:100").crossoverTemp = some (-20) ∧
    ((calcV vFlat true "0:1,10:1" "0:100").crossoverSeries).map CrossRow.t = [-20] ∧
    ¬ (∃ r ∈ (calcV vFlat true "0:1,10:1" "0:100").crossoverSeries, r.t = 65) :=
  ⟨by decide, by decide, by decide, by decide⟩

/-- A profile where the heat pump is strictly more expensive everywhere
(gas free, electricity expensive), so no crossover is detected. -/
def vGasFree : Vals := ⟨0, 100, 0, 0, 0, 0, 0, 1, 1, 1, 0, 0⟩

/-- C8 (witness): with no crossover found, the series covers the whole
scanned domain. -/
theorem crossoverSeries_full_witness :
    (calcV vGasFree true "0:1,10:1" "0:100").crossoverSeries =
      (List.range (numSteps (tMinOf "0:1,10:1") (tMaxOf "0:1,10:1"))).map
        (fun k => ⟨tMinOf "0:1,10:1" + k,
          hpUnitCost (parsePairs "0:1,10:1") (allInEH vGasFree) (tMinOf "0:1,10:1" + k),
          costGasPerMMBtuQ vGasFree⟩) :=
  (crossoverSeries_full_when_no_crossover vGasFree "0:1,10:1" "0:100"
    (by decide) (by decide)).1

/-! ### Finite-value lemmas for the IEEE-tracking layer (C1) -/

namespace JNum

@[simp] theorem jadd_fin (a b : ℚ) : jadd (fin a) (fin b) = fin (a + b) := rfl

@[simp] theorem jneg_fin (a : ℚ) : jneg (fin a) = fin (-a) := rfl

@[simp] theorem jsub_fin (a b : ℚ) : jsub (fin a) (fin b) = fin (a - b) := by
  simp [jsub, sub_eq_add_neg]

@[simp] theorem jmul_fin (a b : ℚ) : jmul (fin a) (fin b) = fin (a * b) := rfl

theorem jdiv_fin (a b : ℚ) (hb : b ≠ 0) : jdiv (fin a) (fin b) = fin (a / b) := by
  simp [jdiv, hb]

@[simp] theorem jle_fin (a b : ℚ) : jle (fin a) (fin b) = decide (a ≤ b) := rfl

@[simp] theorem jlt_fin (a b : ℚ) : jlt (fin a) (fin b) = decide (a < b) := rfl

@[simp] theorem jabs_fin (a : ℚ) : jabs (fin a) = fin |a| := rfl

@[simp] theorem jtruthy_fin (a : ℚ) : jtruthy (fin a) = decide (a ≠ 0) := rfl

@[simp] theorem jround_fin (a : ℚ) : jround (fin a) = fin ((jsRound a : ℤ) : ℚ) := rfl

@[simp] theorem jfix_fin (d : ℕ) (a : ℚ) : jfix d (fin a) = fin (toFixedQ d a) := rfl

@[simp] theorem isFin_fin (a : ℚ) : (fin a).isFin = true := rfl

end JNum

/-- Embed a rational series point into the IEEE-tracking layer. -/
def embedRow (r : CrossRow) : JCrossRow := ⟨r.t, .fin r.hp, .fin r.gas⟩

/-- Embed a rational matrix row into the IEEE-tracking layer. -/
def embedMat (r : MatrixRow) : JMatrixRow :=
  ⟨r.t, r.pct, r.cop, .fin r.hpCost, .fin r.gasCost, r.cheaper⟩

/-- Embed a rational bin-loop accumulator. -/
def embedAcc (a : BinAcc) : JBinAcc :=
  ⟨.fin a.hpKWh, .fin a.costHPsum, .fin a.costGASsum, a.hybridGasMMBtu, a.matrix.map embedMat⟩

/-- Embed a rational crossover-block output. -/
def embedCross (c : CrossOut) : JCrossOut :=
  ⟨c.temp.map JNum.fin, c.note, c.series.map embedRow⟩

/-- Embed a whole rational result record. -/
def embedQ (r : QResult) : JResult :=
  { baseline := .fin (r.baseline : ℚ)
    allElectric := .fin (r.allElectric : ℚ)
    hybrid := r.hybrid.map (fun (z : ℤ) => .fin (z : ℚ))
    hybridGasMMBtu := .fin r.hybridGasMMBtu
    hybridHPkWh := .fin (r.hybridHPkWh : ℚ)
    savingsAll := .fin (r.savingsAll : ℚ)
    savingsHybrid := r.savingsHybrid.map (fun (z : ℤ) => .fin (z : ℚ))
    paybackAll := r.paybackAll.map JNum.fin
    paybackHybrid := r.paybackHybrid.map JNum.fin
    dfcSavings := .fin (r.dfcSavings : ℚ)
    gasHeatCost := .fin (r.gasHeatCost : ℚ)
    hpHeatCost := .fin (r.hpHeatCost : ℚ)
    fuelSwitchSavings := .fin (r.fuelSwitchSavings : ℚ)
    crossoverTemp := r.crossoverTemp.map JNum.fin
    crossoverNote := r.crossoverNote
    crossoverSeries := r.crossoverSeries.map embedRow
    matrix := r.matrix.map embedMat }

/-- A nullable field embedded from rational data is finite-or-null. -/
theorem optFin_map {α : Type} (o : Option α) (f : α → JNum) (h : ∀ x, (f x).isFin = true) :
    optFin (o.map f) = true := by
  cases o with
  | none => rfl
  | some x => exact h x

/-- Every embedded record passes the finite-or-null check on all fields. -/
theorem embedQ_allFinite (r : QResult) : (embedQ r).allFinite = true := by
  have hopt : ∀ o : Option ℤ, optFin (o.map (fun (z : ℤ) => JNum.fin (z : ℚ))) = true := by
    intro o
    cases o <;> rfl
  have hopt2 : ∀ o : Option ℚ, optFin (o.map JNum.fin) = true := by
    intro o
    cases o <;> rfl
  have hrows : ∀ l : List CrossRow,
      ((l.map embedRow).all fun row => row.hp.isFin && row.gas.isFin) = true := by
    intro l
    rw [List.all_eq_true]
    intro x hx
    obtain ⟨y, hy, rfl⟩ := List.mem_map.1 hx
    rfl
  have hmat : ∀ l : List MatrixRow,
      ((l.map embedMat).all fun row => row.hpCost.isFin && row.gasCost.isFin) = true := by
    intro l
    rw [List.all_eq_true]
    intro x hx
    obtain ⟨y, hy, rfl⟩ := List.mem_map.1 hx
    rfl
  unfold JResult.allFinite embedQ
  simp only [JNum.isFin_fin, hopt, hopt2, hrows, hmat, Bool.and_self, Bool.and_true,
    Bool.true_and]

/-! ### Positivity of the interpolator (used to discharge nonzero-COP
hypotheses for concrete tables) -/

/-- The tail-default last element is a member. -/
theorem getLastD_mem : ∀ (c : Coord) (cs : List Coord), cs.getLastD c ∈ c :: cs
  | _, [] => by simp
  | c, b :: bs => by
    rw [List.getLastD_cons]
    exact List.mem_cons_of_mem c (getLastD_mem b bs)

/-- A successful scan over positive samples returns a positive value:
the interpolant is a convex combination of two adjacent samples. -/
theorem interpScan_pos (t : ℚ) :
    ∀ l : List Coord, (∀ p ∈ l, 0 < p.y) → ∀ r, interpScan t l = some r → 0 < r
  | [], _, r, h => by simp [interpScan] at h
  | [a], _, r, h => by simp [interpScan] at h
  | a :: b :: rest, hy, r, h => by
    rw [interpScan] at h
    by_cases hc : a.x ≤ t ∧ t ≤ b.x
    · rw [if_pos hc] at h
      have hr := (Option.some_injective _ h).symm
      have ha : 0 < a.y := hy a (by simp)
      have hb : 0 < b.y := hy b (by simp)
      by_cases hw : b.x - a.x = 0
      · have ht : t = a.x := le_antisymm (by linarith [hc.2]) hc.1
        rw [if_pos hw, ht] at hr
        simpa [hr] using ha
      · rw [if_neg hw] at hr
        have hax : a.x < b.x :=
          lt_of_le_of_ne (le_trans hc.1 hc.2) (fun he => hw (by rw [he]; ring))
        have hd : 0 < b.x - a.x := by linarith
        have hf0 : 0 ≤ (t - a.x) / (b.x - a.x) := div_nonneg (by linarith [hc.1]) hd.le
        have hf1 : (t - a.x) / (b.x - a.x) ≤ 1 :=
          (div_le_one hd).mpr (by linarith [hc.2])
        rcases le_total a.y b.y with hab | hab
        · have hnn : 0 ≤ (t - a.x) / (b.x - a.x) * (b.y - a.y) :=
            mul_nonneg hf0 (by linarith)
          rw [hr]
          linarith
        · have hge : 1 * (b.y - a.y) ≤ (t - a.x) / (b.x - a.x) * (b.y - a.y) :=
            mul_le_mul_of_nonpos_right hf1 (by linarith)
          rw [hr]
          linarith
    · rw [if_neg hc] at h
      exact interpScan_pos t (b :: rest) (fun p hp => hy p (List.mem_cons_of_mem a hp)) r h

/-- A table of positive COP samples interpolates to a positive COP at
every query temperature. -/
theorem interpCOP_pos (table : List Coord) (t : ℚ) (hy : ∀ p ∈ table, 0 < p.y) :
    0 < interpCOP table t := by
  match table with
  | [] => norm_num [interpCOP]
  | c :: cs =>
    have hmem : cs.getLastD c ∈ c :: cs := getLastD_mem c cs
    simp only [interpCOP]
    split
    · exact hy c (by simp)
    · split
      · exact hy _ hmem
      · cases hscan : interpScan t (c :: cs) with
        | none => simpa [hscan] using hy _ hmem
        | some r =>
          have hpos := interpScan_pos t (c :: cs) hy r hscan
          simpa [hscan] using hpos

/-! ### The IEEE-tracking evaluation agrees with the exact-rational one
whenever no division by zero occurs (C1) -/

/-- `costGasPerMMBtu` stays finite whenever `afue ≠ 0`. -/
theorem costGasPerMMBtuJ_fin (v : Vals) (hafue : v.afue ≠ 0) :
    costGasPerMMBtuJ v = .fin (costGasPerMMBtuQ v) := by
  unfold costGasPerMMBtuJ costGasPerMMBtuQ
  rw [JNum.jdiv_fin 1 (1/10) (by norm_num), JNum.jdiv_fin _ _ hafue, JNum.jmul_fin]

/-- `baselineGas` stays finite whenever `afue ≠ 0`. -/
theorem baselineGasJ_fin (v : Vals) (hafue : v.afue ≠ 0) :
    baselineGasJ v = .fin (baselineGasQ v) := by
  unfold baselineGasJ baselineGasQ
  rw [JNum.jdiv_fin _ (1/10) (by norm_num), JNum.jdiv_fin _ _ hafue, JNum.jmul_fin]

/-- `baseline` stays finite whenever `afue ≠ 0`. -/
theorem baselineJ_fin (v : Vals) (hafue : v.afue ≠ 0) :
    baselineJ v = .fin (baselineQ v) := by
  unfold baselineJ baselineQ
  rw [baselineGasJ_fin v hafue, JNum.jadd_fin]

/-- The seasonal-COP fallback kWh stays finite whenever `seasonalCOP ≠ 0`. -/
theorem hpKWh0J_fin (v : Vals) (hscop : v.seasonalCOP ≠ 0) :
    hpKWh0J v = .fin (v.heatMMBtu * c293 / v.seasonalCOP) := by
  unfold hpKWh0J
  rw [JNum.jdiv_fin _ _ hscop]

/-- The per-unit heat-pump cost stays finite whenever the COP is nonzero. -/
theorem hpUnitCostJ_fin (table : List Coord) (rate t : ℚ) (h : interpCOP table t ≠ 0) :
    hpUnitCostJ table rate t = .fin (hpUnitCost table rate t) := by
  unfold hpUnitCostJ hpUnitCost
  rw [JNum.jdiv_fin _ _ h, JNum.jmul_fin]

/-- One bin-loop step agrees with the rational one when `afue ≠ 0` and the
bin's COP is nonzero. -/
theorem binStepJ_embed (v : Vals) (table : List Coord) (a : BinAcc) (b : Coord)
    (hafue : v.afue ≠ 0) (hcop : interpCOP table b.x ≠ 0) :
    binStepJ v table (embedAcc a) b = embedAcc (binStep v table a b) := by
  simp only [binStepJ, binStep, embedAcc, costGasPerMMBtuJ_fin v hafue,
    JNum.jdiv_fin c293 _ hcop, JNum.jmul_fin, JNum.jadd_fin, JNum.jle_fin, JNum.jfix_fin]
  by_cases hc : c293 / interpCOP table b.x * allInEH v ≤ costGasPerMMBtuQ v
  · simp [hc, List.map_append, embedMat]
  · simp [hc, List.map_append, embedMat]

/-- The whole bin loop agrees with the rational one. -/
theorem foldl_binStepJ_embed (v : Vals) (table : List Coord) (hafue : v.afue ≠ 0) :
    ∀ (l : List Coord) (a : BinAcc), (∀ b ∈ l, interpCOP table b.x ≠ 0) →
      l.foldl (binStepJ v table) (embedAcc a) = embedAcc (l.foldl (binStep v table) a) := by
  intro l
  induction l with
  | nil => intro a _; rfl
  | cons b bs ih =>
    intro a h
    rw [List.foldl_cons, List.foldl_cons,
      binStepJ_embed v table a b hafue (h b (List.mem_cons_self b bs))]
    exact ih (binStep v table a b) (fun x hx => h x (List.mem_cons_of_mem b hx))

/-- The bin accumulator agrees with the rational one under the no-zero-COP
hypothesis. -/
theorem binAccJ_embed (v : Vals) (ct bt : String) (hafue : v.afue ≠ 0)
    (hcop : ∀ t, interpCOP (parsePairs ct) t ≠ 0) :
    binAccJ v ct bt = embedAcc (binAccQ v ct bt) := by
  unfold binAccJ binAccQ
  exact foldl_binStepJ_embed v (parsePairs ct) hafue (normalizeBins (parsePairs bt))
    ⟨0, 0, 0, 0, []⟩ (fun b _ => hcop b.x)

/-- The crossover scan agrees with the rational one. -/
theorem crossScanJ_embed (table : List Coord) (rate cg : ℚ)
    (hcop : ∀ t, interpCOP table t ≠ 0) :
    ∀ (n : ℕ) (t0 pT pD : ℚ),
      crossScanJ table rate (.fin cg) n t0 pT (.fin pD) =
        ((crossScan table rate cg n t0 pT pD).1.map embedRow,
          (crossScan table rate cg n t0 pT pD).2.map JNum.fin) := by
  intro n
  induction n with
  | zero => intro t0 pT pD; rfl
  | succ m ih =>
    intro t0 pT pD
    simp only [crossScanJ, crossScan, hpUnitCostJ_fin table rate t0 (hcop t0),
      JNum.jsub_fin, JNum.jle_fin]
    by_cases hc : (pD ≤ 0 ∧ 0 ≤ hpUnitCost table rate t0 - cg) ∨
        (0 ≤ pD ∧ hpUnitCost table rate t0 - cg ≤ 0)
    · have hb : ((decide (pD ≤ 0) && decide (0 ≤ hpUnitCost table rate t0 - cg)) ||
          (decide (0 ≤ pD) && decide (hpUnitCost table rate t0 - cg ≤ 0))) = true := by
        simpa [Bool.or_eq_true, Bool.and_eq_true, decide_eq_true_eq] using hc
      rw [if_pos hb, if_pos hc]
      by_cases hf : |hpUnitCost table rate t0 - cg - pD| < 1/1000000000
      · have hfb : (JNum.jlt (JNum.jabs (JNum.fin (hpUnitCost table rate t0 - cg - pD)))
            (.fin (1/1000000000))) = true := by
          simp only [JNum.jabs_fin, JNum.jlt_fin, decide_eq_true_eq]
          exact hf
        rw [if_pos hfb, if_pos hf]
        simp [embedRow]
      · have hfb : ¬ ((JNum.jlt (JNum.jabs (JNum.fin (hpUnitCost table rate t0 - cg - pD)))
            (.fin (1/1000000000))) = true) := by
          simp only [JNum.jabs_fin, JNum.jlt_fin, decide_eq_true_eq]
          exact hf
        rw [if_neg hfb, if_neg hf]
        have hne : hpUnitCost table rate t0 - cg - pD ≠ 0 := by
          intro h0
          apply hf
          rw [h0]
          norm_num
        rw [JNum.jdiv_fin (0 - pD) _ hne]
        simp [embedRow]
    · have hb : ¬ (((decide (pD ≤ 0) && decide (0 ≤ hpUnitCost table rate t0 - cg)) ||
          (decide (0 ≤ pD) && decide (hpUnitCost table rate t0 - cg ≤ 0))) = true) := by
        simpa [Bool.or_eq_true, Bool.and_eq_true, decide_eq_true_eq] using hc
      rw [if_neg hb, if_neg hc, ih (t0 + 1) t0 (hpUnitCost table rate t0 - cg)]
      simp [embedRow]

/-- The payback computation agrees with the rational one (the positive
branch forces a nonzero divisor). -/
theorem paybackAllJv_embed (net s : ℚ) :
    paybackAllJv net (.fin s) =
      (if 0 < s then some (net / s) else none : Option ℚ).map JNum.fin := by
  unfold paybackAllJv
  rw [JNum.jlt_fin]
  by_cases hs : 0 < s
  · rw [if_pos (by simpa using hs), if_pos hs, JNum.jdiv_fin _ _ (ne_of_gt hs)]
    rfl
  · rw [if_neg (by simpa using hs), if_neg hs]
    rfl

/-- The hybrid payback computation on a present hybrid savings value. -/
theorem paybackHybridJv_embed_some (net s : ℚ) :
    paybackHybridJv net (some (.fin s)) =
      (if s ≠ 0 ∧ 0 < s then some (net / s) else none : Option ℚ).map JNum.fin := by
  by_cases hs : s ≠ 0 ∧ 0 < s
  · rw [if_pos hs]
    show (if (JNum.jtruthy (.fin s) && JNum.jlt (.fin 0) (.fin s)) = true then
        some (JNum.jdiv (.fin net) (.fin s)) else none) = _
    rw [if_pos (by simpa [Bool.and_eq_true] using hs), JNum.jdiv_fin _ _ hs.1]
    rfl
  · rw [if_neg hs]
    show (if (JNum.jtruthy (.fin s) && JNum.jlt (.fin 0) (.fin s)) = true then
        some (JNum.jdiv (.fin net) (.fin s)) else none) = _
    rw [if_neg (by simpa [Bool.and_eq_true] using hs)]
    rfl

/-- The hybrid payback of an absent hybrid savings is absent. -/
@[simp] theorem paybackHybridJv_none (net : ℚ) : paybackHybridJv net none = none := rfl

/-- Absent payback stays absent through the record postprocessing. -/
@[simp] theorem paybackFieldJ_none : paybackFieldJ none = none := rfl

/-- Absent payback stays absent through the rational postprocessing. -/
@[simp] theorem paybackFieldQ_none : paybackFieldQ none = none := rfl

/-- The record-level payback postprocessing agrees with the rational one. -/
theorem paybackFieldJ_embed (p : Option ℚ) :
    paybackFieldJ (p.map JNum.fin) = (paybackFieldQ p).map JNum.fin := by
  cases p with
  | none => rfl
  | some q =>
    by_cases hz : q = 0
    · simp [paybackFieldJ, paybackFieldQ, hz]
    · simp [paybackFieldJ, paybackFieldQ, hz]

/-- The crossover scan exactly as invoked by the IEEE-tracking block. -/
def crossScanJOf (v : Vals) (ct : String) : List JCrossRow × Option JNum :=
  crossScanJ (parsePairs ct) (allInEH v) (costGasPerMMBtuJ v)
    (numSteps (tMinOf ct) (tMaxOf ct)) (tMinOf ct) (tMinOf ct)
    (JNum.jsub (hpUnitCostJ (parsePairs ct) (allInEH v) (tMinOf ct)) (costGasPerMMBtuJ v))

/-- The crossover block agrees with the rational one when `afue ≠ 0` and
(in table mode) the interpolated COP is everywhere nonzero. -/
theorem crossoverJ_embed (v : Vals) (flag : Bool) (ct : String) (hafue : v.afue ≠ 0)
    (hcop : flag = true → ∀ t, interpCOP (parsePairs ct) t ≠ 0) :
    crossoverJ v flag ct = embedCross (crossoverQ v flag ct) := by
  cases flag with
  | false => rfl
  | true =>
    have hc := hcop rfl
    have hJ : crossoverJ v true ct =
        (if (parsePairs ct).length > 1 then
          (match (crossScanJOf v ct).2 with
           | some c => (⟨some c, "", (crossScanJOf v ct).1⟩ : JCrossOut)
           | none =>
             ⟨none,
              if JNum.jlt (JNum.jsub (hpUnitCostJ (parsePairs ct) (allInEH v) (tMinOf ct))
                    (costGasPerMMBtuJ v)) (.fin 0) &&
                  JNum.jlt (JNum.jsub (hpUnitCostJ (parsePairs ct) (allInEH v) (tMaxOf ct))
                    (costGasPerMMBtuJ v)) (.fin 0) then
                "HP cheaper at all temps"
              else if JNum.jlt (.fin 0) (JNum.jsub (hpUnitCostJ (parsePairs ct) (allInEH v)
                    (tMinOf ct)) (costGasPerMMBtuJ v)) &&
                  JNum.jlt (.fin 0) (JNum.jsub (hpUnitCostJ (parsePairs ct) (allInEH v)
                    (tMaxOf ct)) (costGasPerMMBtuJ v)) then
                "Gas cheaper at all temps"
              else "Crossover outside modeled range",
              (crossScanJOf v ct).1⟩)
        else ⟨none, "", []⟩) := rfl
    have hQ : crossoverQ v true ct =
        (if (parsePairs ct).length > 1 then
          (match (crossScanOf v ct).2 with
           | some c => (⟨some c, "", (crossScanOf v ct).1⟩ : CrossOut)
           | none =>
             ⟨none,
              if hpUnitCost (parsePairs ct) (allInEH v) (tMinOf ct) - costGasPerMMBtuQ v < 0 ∧
                  hpUnitCost (parsePairs ct) (allInEH v) (tMaxOf ct) - costGasPerMMBtuQ v < 0 then
                "HP cheaper at all temps"
              else if 0 < hpUnitCost (parsePairs ct) (allInEH v) (tMinOf ct) -
                    costGasPerMMBtuQ v ∧
                  0 < hpUnitCost (parsePairs ct) (allInEH v) (tMaxOf ct) -
                    costGasPerMMBtuQ v then
                "Gas cheaper at all temps"
              else "Crossover outside modeled range",
              (crossScanOf v ct).1⟩)
        else ⟨none, "", []⟩) := rfl
    rw [hJ, hQ]
    by_cases hlen : (parsePairs ct).length > 1
    case neg =>
      rw [if_neg hlen, if_neg hlen]
      rfl
    case pos =>
      rw [if_pos hlen, if_pos hlen]
      have hscan : crossScanJOf v ct =
          ((crossScanOf v ct).1.map embedRow, (crossScanOf v ct).2.map JNum.fin) := by
        unfold crossScanJOf crossScanOf
        rw [costGasPerMMBtuJ_fin v hafue,
          hpUnitCostJ_fin (parsePairs ct) (allInEH v) (tMinOf ct) (hc (tMinOf ct)),
          JNum.jsub_fin]
        exact crossScanJ_embed (parsePairs ct) (allInEH v) (costGasPerMMBtuQ v) hc
          (numSteps (tMinOf ct) (tMaxOf ct)) (tMinOf ct) (tMinOf ct) _
      rw [hscan]
      cases hsc : (crossScanOf v ct).2 with
      | some c => simp [embedCross]
      | none =>
        rw [costGasPerMMBtuJ_fin v hafue,
          hpUnitCostJ_fin (parsePairs ct) (allInEH v) (tMinOf ct) (hc (tMinOf ct)),
          hpUnitCostJ_fin (parsePairs ct) (allInEH v) (tMaxOf ct) (hc (tMaxOf ct))]
        simp only [JNum.jsub_fin, JNum.jlt_fin, Option.map_none']
        by_cases h1 : hpUnitCost (parsePairs ct) (allInEH v) (tMinOf ct) -
              costGasPerMMBtuQ v < 0 ∧
            hpUnitCost (parsePairs ct) (allInEH v) (tMaxOf ct) - costGasPerMMBtuQ v < 0
        · simp [embedCross, Bool.and_eq_true, h1]
        · by_cases h2 : 0 < hpUnitCost (parsePairs ct) (allInEH v) (tMinOf ct) -
                costGasPerMMBtuQ v ∧
              0 < hpUnitCost (parsePairs ct) (allInEH v) (tMaxOf ct) - costGasPerMMBtuQ v
          · simp [embedCross, Bool.and_eq_true, h1, h2]
          · simp [embedCross, Bool.and_eq_true, h1, h2]

/-- The whole `calc` agrees field-by-field with the exact rational
evaluation whenever `afue ≠ 0`, every interpolated COP used is nonzero in
table mode, and the seasonal COP is nonzero in non-table mode. -/
theorem calcJ_embed (v : Vals) (flag : Bool) (ct bt : String)
    (hafue : v.afue ≠ 0)
    (hcop : flag = true → ∀ t, interpCOP (parsePairs ct) t ≠ 0)
    (hscop : flag = false → v.seasonalCOP ≠ 0) :
    calcJ v flag ct bt = embedQ (calcV v flag ct bt) := by
  cases flag with
  | true =>
    have hacc := binAccJ_embed v ct bt hafue (hcop rfl)
    have hcross := crossoverJ_embed v true ct hafue hcop
    simp only [calcJ, calcV, embedQ, hacc, hcross, embedAcc, embedCross,
      baselineJ_fin v hafue, baselineGasJ_fin v hafue, eq_self_iff_true, if_true,
      JNum.jadd_fin, JNum.jmul_fin, JNum.jsub_fin, JNum.jround_fin, JNum.jfix_fin,
      Option.map_some', Option.map_none', Int.cast_zero,
      hybridQ, hpKWhQ, savingsAllQ, savingsHybridQ, allElectricQ, paybackAllQ, paybackHybridQ,
      paybackAllJv_embed, paybackHybridJv_embed_some, paybackFieldJ_embed]
  | false =>
    have hcross := crossoverJ_embed v false ct hafue hcop
    simp only [calcJ, calcV, embedQ, embedCross, hcross,
      baselineJ_fin v hafue, baselineGasJ_fin v hafue, hpKWh0J_fin v (hscop rfl),
      Bool.false_eq_true, if_false,
      JNum.jadd_fin, JNum.jmul_fin, JNum.jsub_fin, JNum.jround_fin, JNum.jfix_fin,
      Option.map_some', Option.map_none', Int.cast_zero,
      hybridQ, hpKWhQ, savingsAllQ, savingsHybridQ, allElectricQ, paybackAllQ, paybackHybridQ,
      paybackHybridJv_none, paybackAllJv_embed, paybackFieldJ_embed, paybackFieldJ_none,
      paybackFieldQ_none, List.map_nil]

/-- C1 (amended): provided `afue ≠ 0`, every interpolated COP is nonzero
in table mode, and the seasonal COP is nonzero in non-table mode, the
IEEE-tracking evaluation of the whole output record agrees with the exact
rational one, and in particular every numeric field (scalars, nullable
scalars, series and matrix entries) is a finite number or the explicit
null marker; the guards in the code do NOT cover `afue = 0`, where the
baseline becomes `+Infinity` (see the counterexample). -/
theorem calc_allFinite (v : Vals) (flag : Bool) (ct bt : String)
    (hafue : v.afue ≠ 0)
    (hcop : flag = true → ∀ t, interpCOP (parsePairs ct) t ≠ 0)
    (hscop : flag = false → v.seasonalCOP ≠ 0) :
    calcJ v flag ct bt = embedQ (calcV v flag ct bt) ∧
    (calcJ v flag ct bt).allFinite = true := by
  have h := calcJ_embed v flag ct bt hafue hcop hscop
  refine ⟨h, ?_⟩
  rw [h]
  exact embedQ_allFinite _

/-- The offending input profile for C1: `afue = 0` with a nonzero heat
load and gas rate. -/
def vAfueZero : Vals := ⟨10, 1, 0, 0, 0, 1, 0, 0, 1, 1, 10, 0⟩

/-- C1 (counterexample): at `afue = 0` the baseline field evaluates to
IEEE `+Infinity` and the record fails the finite-or-null check, so the
claim that no field is ever NaN or infinity — "including when afue = 0" —
is false. -/
theorem calc_allFinite_cex :
    (calcJ vAfueZero false "" "").baseline = JNum.inf ∧
    (calcJ vAfueZero false "" "").allFinite = false :=
  ⟨by decide, by decide⟩

/-- C1 (witness): at the defaults with a positive two-point COP table and
two bins, every field of the record is finite-or-null. -/
theorem calc_allFinite_witness :
    (calcJ DEFAULTS true "0:2,10:3" "5:60,15:40").allFinite = true :=
  (calc_allFinite DEFAULTS true "0:2,10:3" "5:60,15:40" (by decide)
    (fun _ t => ne_of_gt (interpCOP_pos (parsePairs "0:2,10:3") t (by decide)))
    (fun h => absurd h (by decide))).2
